import Mathlib

/-!
# Client-side router of the video browsing demo (`router.js`, `utils.js`, `menu.js`,
`components/pagination.js`)

A shallow embedding of the router: the base routing path and its normalisation,
the translation between full and logical paths, the ordered list of route
handlers, the dispatch of a path to its handler, programmatic navigation through
the browser history, the binding of route links and the query parameter helper;
and of the helpers around it: the edit distance and `join` of `utils.js`, the two
tag rankings of `menu.js`, and the page window of the pagination view.

Conventions of the embedding

* A JavaScript string is a list of characters (`Str`).  `undefined` is `none`
  of an `Option`.
* Global variables of `router.js` (`baseRoutingPath`, `handlers`) are explicit
  arguments of the functions that read them.
* A regular expression object without the `g` and `y` flags is given by what its
  `exec` method returns; `test`, `String.prototype.match` and
  `String.prototype.replace` are defined from `exec` as the language does.
* `new RegExp(pattern)` is interpreted for a fragment of the pattern language
  (see `newRegExp` and `newUrlParameterRegExp`); outside the fragment the result
  is `none`.  What holds for every pattern is stated over an arbitrary pattern
  object (`removeBaseRoutingPathWith`).
* Loops are recursive functions on the number of iterations left; an early
  `return` inside a loop is the `error` case of `Except`.
* An array that is changed in place is a reference into a store of arrays
  (`ArrayStore`); where only the elements matter an array is the list of them.
* The positions and the length of a string count UTF-16 code units (`utf16`): a
  character above U+FFFF is two of them.
* Page numbers are integers (`Int`).  The pagination view is given twice: in exact
  integer arithmetic (`PaginationView.window`, `PaginationView.render`), and in
  the number arithmetic of the language, where each sum and difference is rounded
  to a double and the loop may fail to end (`Doubles.PaginationView.window`,
  `Doubles.PaginationView.render`); the two agree for page counts below `2 ^ 53`
  (`doubles_window_eq`, `doubles_render_eq`).
-/

namespace Router

/-- A JavaScript string, as the list of its characters. -/
abbrev Str := List Char

/-! ## Regular expressions -/

/-- The result array of a successful `exec`: the index of the match in the input,
and the matched substrings, the whole match first and then one entry per capture
group (`none` for a group that did not take part in the match). -/
structure MatchResult where
  index : Nat
  groups : List (Option Str)
deriving DecidableEq

/-- A regular expression object without the `g` and `y` flags: `exec` is then a
function of the input alone, `none` standing for the `null` result. -/
structure RegExp where
  exec : Str → Option MatchResult

/-- The method `RegExp.prototype.test`: whether `exec` finds a match. -/
def RegExp.test (re : RegExp) (s : Str) : Bool :=
  (re.exec s).isSome

/-- The length of the whole match of a result array. -/
def MatchResult.matchLength (m : MatchResult) : Nat :=
  match m.groups with
  | some whole :: _ => whole.length
  | _ => 0

/-- The method `String.prototype.replace` with a regular expression without the
`g` flag and a replacement string free of `$` patterns: the first match is
replaced, an input without match is returned as it is. -/
def replace (s : Str) (re : RegExp) (newSubstr : Str) : Str :=
  match re.exec s with
  | none => s
  | some m => s.take m.index ++ newSubstr ++ s.drop (m.index + m.matchLength)

/-- The regular expression literal `/^\/+/`: one or more slashes at the start of
the input. -/
def leadingSlashes : RegExp where
  exec := fun s =>
    let run := s.takeWhile (fun c => c == '/')
    if run.isEmpty then none else some { index := 0, groups := [some run] }

/-- The quantifier that follows a pattern character: none, `?`, `*` or `+`. -/
inductive Quantifier
  | one
  | opt
  | star
  | plus
deriving DecidableEq

/-- A literal pattern character with its (greedy) quantifier. -/
structure Term where
  char : Char
  quantifier : Quantifier
deriving DecidableEq

/-- The characters with a meaning of their own in a pattern:
`^ $ \ . * + ? ( ) [ ] { } |`. -/
def isSyntaxCharacter (c : Char) : Bool :=
  c == '^' || c == '$' || c == Char.ofNat 92 || c == '.' || c == '*' || c == '+' ||
  c == '?' || c == '(' || c == ')' || c == '[' || c == ']' || c == '{' || c == '}' ||
  c == '|'

/-- The quantifier a pattern character denotes, if it is one of `?`, `*`, `+`. -/
def quantifierOf (c : Char) : Option Quantifier :=
  if c == '?' then some Quantifier.opt
  else if c == '*' then some Quantifier.star
  else if c == '+' then some Quantifier.plus
  else none

/-- One step of reading a pattern from left to right; the terms read so far are
kept in reverse.  A quantifier applies to the term just read and needs one that
has no quantifier yet (a second quantifier character would make the first lazy or
the pattern ill-formed).  Any other syntax character, and a character outside the
Basic Multilingual Plane (two code units in the pattern, of which a quantifier
would take the second only), leaves the fragment. -/
def parseStep (acc : Option (List Term)) (c : Char) : Option (List Term) :=
  match acc with
  | none => none
  | some terms =>
    match quantifierOf c with
    | some q =>
      match terms with
      | { char := a, quantifier := Quantifier.one } :: rest =>
        some ({ char := a, quantifier := q } :: rest)
      | _ => none
    | none =>
      if isSyntaxCharacter c || decide (65536 ≤ c.toNat) then none
      else some ({ char := c, quantifier := Quantifier.one } :: terms)

/-- The terms of a pattern body made of literal characters and the quantifiers
`?`, `*`, `+`; `none` for a pattern outside this fragment. -/
def parseTerms (body : Str) : Option (List Term) :=
  (body.foldl parseStep (some [])).map List.reverse

/-- Greedy repetition of a character `a` followed by the continuation `k`: as
many `a` as possible are taken first, one fewer on each failure of what follows. -/
def matchStar (a : Char) (k : Str → Option Str) : Str → Option Str
  | [] => k []
  | c :: s =>
    if c == a then
      match matchStar a k s with
      | some rest => some rest
      | none => k (c :: s)
    else k (c :: s)

/-- Backtracking match of a list of terms at the start of the input; the result
is the input left after the match. -/
def matchTerms : List Term → Str → Option Str
  | [], s => some s
  | { char := a, quantifier := Quantifier.one } :: ts, s =>
    match s with
    | c :: s1 => if c == a then matchTerms ts s1 else none
    | [] => none
  | { char := a, quantifier := Quantifier.opt } :: ts, s =>
    match s with
    | c :: s1 =>
      if c == a then
        match matchTerms ts s1 with
        | some rest => some rest
        | none => matchTerms ts s
      else matchTerms ts s
    | [] => matchTerms ts s
  | { char := a, quantifier := Quantifier.star } :: ts, s =>
    matchStar a (matchTerms ts) s
  | { char := a, quantifier := Quantifier.plus } :: ts, s =>
    match s with
    | c :: s1 => if c == a then matchStar a (matchTerms ts) s1 else none
    | [] => none

/-- The constructor `new RegExp(pattern)` without flags, for patterns made of a
leading `^` followed by literal characters and the quantifiers `?`, `*`, `+`.
Such a pattern can only match at index 0 and has no capture group.  The result is
`none` for every other pattern: it is then outside the fragment interpreted here
(in the browser it is a pattern of another shape or a `SyntaxError`). -/
def newRegExp (pattern : Str) : Option RegExp :=
  match pattern with
  | [] => none
  | c :: body =>
    if c == '^' then
      (parseTerms body).map fun terms =>
        { exec := fun s =>
            (matchTerms terms s).map fun rest =>
              { index := 0, groups := [some (s.take (s.length - rest.length))] } }
    else none

/-! ## Base routing path -/

/-- The characters removed by `String.prototype.trim`: white space and line
terminators. -/
def isWhiteSpace (c : Char) : Bool :=
  let n := c.toNat
  n == 9 || n == 10 || n == 11 || n == 12 || n == 13 || n == 32 || n == 160 ||
  n == 5760 || (decide (8192 ≤ n) && decide (n ≤ 8202)) || n == 8232 || n == 8233 ||
  n == 8239 || n == 8287 || n == 12288 || n == 65279

/-- The method `String.prototype.trim`. -/
def trim (s : Str) : Str :=
  ((s.dropWhile isWhiteSpace).reverse.dropWhile isWhiteSpace).reverse

/-- The value `!path` for a string or `undefined`: true for `undefined` and for
the empty string. -/
def isFalsy (path : Option Str) : Bool :=
  match path with
  | none => true
  | some [] => true
  | some (_ :: _) => false

/-- The function `setBaseRoutingPath`: the value stored in `baseRoutingPath`.
Falsy values and strings of white space become the empty string; a slash is
appended unless the last character is a slash already. -/
def setBaseRoutingPath (path : Option Str) : Str :=
  let path : Str :=
    if isFalsy path || trim (path.getD []) == [] then [] else path.getD []
  if path.getLast? != some '/' then path ++ ['/'] else path

/-- The function `getBaseRoutingPathRegex`: `new RegExp('^' + baseRoutingPath + '?')`. -/
def getBaseRoutingPathRegex (baseRoutingPath : Str) : Option RegExp :=
  newRegExp (['^'] ++ baseRoutingPath ++ ['?'])

/-- The function `prependBaseRoutingPath`: the base routing path followed by
`(path || '')` without its leading slashes. -/
def prependBaseRoutingPath (baseRoutingPath : Str) (path : Option Str) : Str :=
  baseRoutingPath ++ replace (path.getD []) leadingSlashes []

/-- The function `removeBaseRoutingPath`: the match of the base routing path
pattern and then all leading slashes are removed, and one slash is put in front.
The result is `none` when the base routing path pattern is outside the fragment
of `newRegExp`. -/
def removeBaseRoutingPath (baseRoutingPath : Str) (path : Str) : Option Str :=
  (getBaseRoutingPathRegex baseRoutingPath).map fun re =>
    let path := replace (replace path re []) leadingSlashes []
    '/' :: path

/-- The body of `removeBaseRoutingPath` for a given value of
`getBaseRoutingPathRegex()`: `'/' + path.replace(re, '').replace(/^\/+/, '')`,
where `re` is any pattern object, whatever pattern language it was built from. -/
def removeBaseRoutingPathWith (re : RegExp) (path : Str) : Str :=
  let path := replace (replace path re []) leadingSlashes []
  '/' :: path

/-! ## Route handlers -/

/-- The first argument of `registerRouteHandler`: a function (given with its
result already cast to a boolean, as `!!matcher(path)` does), a string, or a
regular expression. -/
inductive Matcher
  | function (f : Str → Bool)
  | string (s : Str)
  | regExp (re : RegExp)

/-- An element of `handlers`: the handler function and the matcher its methods
`canHandlePath` and `parseRouteParts` close over.  The handler function is kept
as a value of an arbitrary type `H`; calling it is an event of the model. -/
structure RouteHandler (H : Type) where
  handlerFunction : H
  matcher : Matcher

/-- The method `canHandlePath` of a registered handler. -/
def RouteHandler.canHandlePath {H : Type} (handler : RouteHandler H) (path : Str) : Bool :=
  match handler.matcher with
  | Matcher.function f => f path
  | Matcher.string s => path == s
  | Matcher.regExp re => re.test path

/-- The method `parseRouteParts` of a registered handler: the result array of
`path.match(matcher)` for a regular expression (`none` for `null`), and the array
`[path, path]` otherwise. -/
def RouteHandler.parseRouteParts {H : Type} (handler : RouteHandler H) (path : Str) :
    Option (List (Option Str)) :=
  match handler.matcher with
  | Matcher.regExp re => (re.exec path).map fun m => m.groups
  | _ => some [some path, some path]

/-- The function `registerRouteHandler`: the new value of `handlers`. -/
def registerRouteHandler {H : Type} (handlers : List (RouteHandler H)) (matcher : Matcher)
    (handler : H) : List (RouteHandler H) :=
  handlers ++ [{ handlerFunction := handler, matcher := matcher }]

/-- The function `arrayFind` of `utils.js`: the elements are tried by increasing
index and the first one the predicate accepts is returned, `none` standing for
`undefined`.  The two `TypeError` guards of the source (no array, a predicate that
is not a function) cannot fire on a list and a function. -/
def arrayFind {α : Type} (array : List α) (predicate : α → Bool) : Option α :=
  match array with
  | [] => none
  | value :: rest => if predicate value then some value else arrayFind rest predicate

/-- The function `findRouteHandlerForPath`. -/
def findRouteHandlerForPath {H : Type} (handlers : List (RouteHandler H)) (path : Str) :
    Option (RouteHandler H) :=
  match arrayFind handlers (fun handler => handler.canHandlePath path) with
  | none => none
  | some handler => some handler

/-- How a call of `renderRouteAtPath` ends: with the call of a handler function on
a list of arguments, or with the `TypeError` of reading a property of
`undefined`. -/
inductive Completion (H : Type)
  | called (handlerFunction : H) (arguments : List (Option Str))
  | typeError
deriving DecidableEq

/-- What a call of `renderRouteAtPath` does: the messages passed to
`console.error`, and how the call ends. -/
structure RenderResult (H : Type) where
  consoleErrors : List Str
  completion : Completion H
deriving DecidableEq

/-- The message `'Routing failed: No route handler for path "' + path + '"'`. -/
def routingFailedMessage (path : Str) : Str :=
  "Routing failed: No route handler for path ".toList ++ [Char.ofNat 34] ++ path ++
    [Char.ofNat 34]

/-- The function `renderRouteAtPath`.  When no handler is found the message is
logged and the next statement reads `handler.handlerFunction` of `undefined`.
Otherwise the handler function is applied to the route parts (`apply` with `null`
passes no argument).  The result is `none` when the base routing path pattern is
outside the fragment of `newRegExp`. -/
def renderRouteAtPath {H : Type} (baseRoutingPath : Str) (handlers : List (RouteHandler H))
    (path : Str) : Option (RenderResult H) :=
  (removeBaseRoutingPath baseRoutingPath path).map fun path =>
    match findRouteHandlerForPath handlers path with
    | none =>
      { consoleErrors := [routingFailedMessage path], completion := Completion.typeError }
    | some handler =>
      { consoleErrors := [],
        completion :=
          Completion.called handler.handlerFunction ((handler.parseRouteParts path).getD []) }

/-! ## Browser history and navigation -/

/-- An entry of the session history: the title and the URL given to `pushState`. -/
structure HistoryEntry where
  title : Option Str
  url : Str
deriving DecidableEq

/-- The part of `window` the router uses: the entries of the session history and
the index of the current one. -/
structure Window where
  entries : List HistoryEntry
  current : Nat
deriving DecidableEq

/-- The method `window.history.pushState(\x7b\x7d, title, url)`: the entries after the
current one are dropped, the new entry is added and becomes the current one. -/
def Window.pushState (w : Window) (title : Option Str) (url : Str) : Window :=
  let kept := w.entries.take (w.current + 1)
  { entries := kept ++ [{ title := title, url := url }], current := kept.length }

/-- The value `window.location.pathname` for a current entry whose URL is a path
starting at the root: the URL up to its query string or fragment. -/
def Window.pathname (w : Window) : Str :=
  match w.entries.get? w.current with
  | none => []
  | some entry => entry.url.takeWhile fun c => c != '?' && c != '#'

/-- The function `navigateToCurrentPath`. -/
def navigateToCurrentPath {H : Type} (baseRoutingPath : Str) (handlers : List (RouteHandler H))
    (w : Window) : Option (RenderResult H) :=
  renderRouteAtPath baseRoutingPath handlers w.pathname

/-- The function `navigateToRoute`: the window after `pushState`, and what the
render of the current path does. -/
def navigateToRoute {H : Type} (baseRoutingPath : Str) (handlers : List (RouteHandler H))
    (w : Window) (path : Str) (title : Option Str) : Window × Option (RenderResult H) :=
  let displayedPath := path
  let w1 := w.pushState title displayedPath
  (w1, navigateToCurrentPath baseRoutingPath handlers w1)

/-! ## The routes of the specification's example -/

/-- Line terminators, which `.` does not match. -/
def isLineTerminator (c : Char) : Bool :=
  c.toNat == 10 || c.toNat == 13 || c.toNat == 8232 || c.toNat == 8233

/-- The regular expression literal `/^\/tag\/(.*)$/` of `routes/tag.js`: it matches
the inputs made of `/tag/` and a rest without line terminator, which is its
capture group. -/
def tagRoutePattern : RegExp where
  exec := fun s =>
    if s.take 5 == "/tag/".toList && (s.drop 5).all (fun c => !isLineTerminator c) then
      some { index := 0, groups := [some s, some (s.drop 5)] }
    else none

/-- The registrations A (the exact string `/`), B (the tag pattern) and C (a
function that accepts every path), in this order, with the names of their handler
functions. -/
def exampleRoutes : List (RouteHandler String) :=
  registerRouteHandler
    (registerRouteHandler
      (registerRouteHandler [] (Matcher.string "/".toList) "A")
      (Matcher.regExp tagRoutePattern) "B")
    (Matcher.function fun _ => true) "C"

/-! ## Route links (`bindRouteLinks`) -/

/-- An element of the page as `bindRouteLinks` sees it: its `href` and
`data-router-link` attributes (`none` for an absent attribute), whether it carries
the `data-router-link-bound` attribute, and the number of click handlers attached
to it by `bindRouteLinks`. -/
structure LinkElement where
  href : Option Str
  routerLink : Option Str
  bound : Bool
  clickHandlers : Nat
deriving DecidableEq

/-- The expression `a || b` on values that are strings or `undefined`: `a` when it
is a non-empty string, `b` otherwise. -/
def orElse (a b : Option Str) : Option Str :=
  match a with
  | some (c :: s) => some (c :: s)
  | _ => b

/-- The conversion of a string or `undefined` to a string, as `RegExp.prototype.test`
applies it to its argument. -/
def toStringValue (value : Option Str) : Str :=
  value.getD "undefined".toList

/-- The click handler that `bindRouteLinks` attaches, up to its last statement: the
value of `path` it passes to `navigateToRoute`.  The result is `none` when the base
routing path pattern is outside the fragment of `newRegExp`. -/
def routeLinkClickPath (baseRoutingPath : Str) (link : LinkElement) : Option (Option Str) :=
  (getBaseRoutingPathRegex baseRoutingPath).map fun re =>
    let path := orElse link.href link.routerLink
    if !re.test (toStringValue path) then some (prependBaseRoutingPath baseRoutingPath path)
    else path

/-- The function `bindRouteLinks` on the elements of the container: every element
with a `data-router-link` attribute and without the `data-router-link-bound`
attribute gets that attribute and one more click handler. -/
def bindRouteLinks (container : List LinkElement) : List LinkElement :=
  container.map fun link =>
    if link.routerLink.isSome && !link.bound then
      { link with bound := true, clickHandlers := link.clickHandlers + 1 }
    else link

/-! ## Query parameters (`getUrlParameter`) -/

/-- A regular expression literal made of a character class with the single
character `c`, such as `/[\[]/`: the first occurrence of `c` in the input. -/
def firstOccurrence (c : Char) : RegExp where
  exec := fun s =>
    if s.contains c then some { index := s.indexOf c, groups := [some [c]] } else none

/-- The search of the pattern `[\?&]` + `name` + `=([^&#]*)` for a name made of
characters that stand for themselves: the leftmost `?` or `&` followed by the name
and `=`; the capture group is the longest run of characters other than `&` and `#`
after it.  The second argument is the index of the first character of the input. -/
def execUrlParameter (name : Str) : Str → Nat → Option MatchResult
  | [], _ => none
  | c :: t, i =>
    if (c == '?' || c == '&') && (name ++ ['=']).isPrefixOf t then
      let value := (t.drop (name.length + 1)).takeWhile fun x => x != '&' && x != '#'
      some { index := i, groups := [some (c :: (name ++ ['='] ++ value)), some value] }
    else execUrlParameter name t (i + 1)

/-- The constructor call `new RegExp('[\\?&]' + name + '=([^&#]*)')`, for a name
made of characters that stand for themselves in a pattern (none of the syntax
characters, one code unit each); the result is `none` for every other name, whose
pattern is outside the fragment interpreted here. -/
def newUrlParameterRegExp (name : Str) : Option RegExp :=
  if name.all (fun c => !isSyntaxCharacter c && decide (c.toNat < 65536)) then
    some { exec := fun s => execUrlParameter name s 0 }
  else none

/-- The call `.replace(/\+/g, ' ')`: every `+` becomes a space. -/
def replacePlusBySpace (s : Str) : Str :=
  s.map fun c => if c == '+' then ' ' else c

/-- The function `getUrlParameter`, given the value of `location.search` and the
function `decodeURIComponent` of the platform (`none` when it throws a
`URIError`).  The outer `none` is a name whose pattern is outside the fragment of
`newUrlParameterRegExp`; the inner `none` is the `URIError`. -/
def getUrlParameter (decodeURIComponent : Str → Option Str) (search : Str) (name : Str) :
    Option (Option Str) :=
  let name := replace (replace name (firstOccurrence '[') [Char.ofNat 92, '['])
    (firstOccurrence ']') [Char.ofNat 92, ']']
  (newUrlParameterRegExp name).map fun regex =>
    match regex.exec search with
    | none => some []
    | some results =>
      match results.groups.get? 1 with
      | some (some value) => decodeURIComponent (replacePlusBySpace value)
      | _ => none

/-! ## Code units -/

/-- A string as the list of its UTF-16 code units, which is what the positions
and the length of a string count in the language. -/
abbrev CodeUnits := List Nat

/-- The UTF-16 code units of a character: the code point itself below 65536, and
otherwise a high surrogate followed by a low surrogate. -/
def codeUnitsOfChar (c : Char) : CodeUnits :=
  if c.toNat < 65536 then [c.toNat]
  else [55296 + (c.toNat - 65536) / 1024, 56320 + (c.toNat - 65536) % 1024]

/-- The UTF-16 code units of a string. -/
def utf16 (s : Str) : CodeUnits :=
  (s.map codeUnitsOfChar).flatten

/-! ## Edit distance (`levenshteinDistance` of `utils.js`) -/

/-- A value read from the matrix `d` or computed from such values: a natural
number, or `none` for `undefined` and `NaN`, which behave alike in the operations
used here (a sum with them is `NaN`, a comparison with them is false, `Math.min`
with them is `NaN`). -/
abbrev JsNumber := Option Nat

/-- The sum `x + k` of a matrix value and a number. -/
def JsNumber.add (x : JsNumber) (k : Nat) : JsNumber :=
  x.map fun v => v + k

/-- The comparison `x < y`. -/
def JsNumber.lt (x y : JsNumber) : Bool :=
  match x, y with
  | some v, some w => decide (v < w)
  | _, _ => false

/-- The call `Math.min(x, y)`. -/
def JsNumber.min (x y : JsNumber) : JsNumber :=
  match x, y with
  | some v, some w => some (Nat.min v w)
  | _, _ => none

/-- The two-dimensional array `d`: the value at `d[i][j]`, `none` where nothing
was written. -/
abbrev DistanceMatrix := Nat → Nat → JsNumber

/-- The assignment `d[i][j] = v`. -/
def DistanceMatrix.set (d : DistanceMatrix) (i j : Nat) (v : JsNumber) : DistanceMatrix :=
  fun i2 j2 => if i2 = i ∧ j2 = j then v else d i2 j2

/-- The loop `for (var i = n; i >= 0; i--) d[i][0] = i`, from the given `i` down. -/
def initFirstColumn (d : DistanceMatrix) : Nat → DistanceMatrix
  | 0 => d.set 0 0 (some 0)
  | i + 1 => initFirstColumn (d.set (i + 1) 0 (some (i + 1))) i

/-- The loop `for (var j = m; j >= 0; j--) d[0][j] = j`, from the given `j` down. -/
def initFirstRow (d : DistanceMatrix) : Nat → DistanceMatrix
  | 0 => d.set 0 0 (some 0)
  | j + 1 => initFirstRow (d.set 0 (j + 1) (some (j + 1))) j

/-- The body of the inner loop of `levenshteinDistance` (steps 4 to 6 and the
transposition) at the cell `i`, `j`: either `return n` (`Except.error`), or the
matrix after the body.  The two strings are given by their code units; `charAt`
is `get?`, the empty string of an index out of range being `none`. -/
def distanceStep (stringA stringB : CodeUnits) (n i j : Nat) (d : DistanceMatrix) :
    Except Nat DistanceMatrix :=
  if i == j && JsNumber.lt (some 4) (d i j) then Except.error n
  else
    let s_i := stringA.get? (i - 1)
    let t_j := stringB.get? (j - 1)
    let cost := if s_i == t_j then 0 else 1
    let mi := (d (i - 1) j).add 1
    let b := (d i (j - 1)).add 1
    let c := (d (i - 1) (j - 1)).add cost
    let mi := if b.lt mi then b else mi
    let mi := if c.lt mi then c else mi
    let d := d.set i j mi
    if decide (i > 1) && decide (j > 1) && s_i == stringB.get? (j - 2) &&
        stringA.get? (i - 2) == t_j then
      Except.ok (d.set i j (JsNumber.min (d i j) ((d (i - 2) (j - 2)).add cost)))
    else Except.ok d

/-- The inner loop `for (var j = ...; j <= m; j++)`, with the number of iterations
left and the current `j`. -/
def distanceInnerLoop (stringA stringB : CodeUnits) (n i : Nat) :
    Nat → Nat → DistanceMatrix → Except Nat DistanceMatrix
  | 0, _, d => Except.ok d
  | k + 1, j, d =>
    match distanceStep stringA stringB n i j d with
    | Except.error v => Except.error v
    | Except.ok d2 => distanceInnerLoop stringA stringB n i k (j + 1) d2

/-- The outer loop `for (var i = ...; i <= n; i++)`, with the number of iterations
left and the current `i`; each iteration runs the inner loop from `j = 1`. -/
def distanceOuterLoop (stringA stringB : CodeUnits) (n m : Nat) :
    Nat → Nat → DistanceMatrix → Except Nat DistanceMatrix
  | 0, _, d => Except.ok d
  | k + 1, i, d =>
    match distanceInnerLoop stringA stringB n i m 1 d with
    | Except.error v => Except.error v
    | Except.ok d2 => distanceOuterLoop stringA stringB n m k (i + 1) d2

/-- The function `levenshteinDistance`.  The lengths `n` and `m` and the
positions of `charAt` count UTF-16 code units.  The rows `d[0]` to `d[n]` are
created empty, the first column and the first row are filled, then the cells are
computed row by row; the result is `d[n][m]`. -/
def levenshteinDistance (stringA stringB : Str) : JsNumber :=
  let n := (utf16 stringA).length
  let m := (utf16 stringB).length
  if n == 0 then some m
  else if m == 0 then some n
  else
    let d := initFirstRow (initFirstColumn (fun _ _ => none) n) m
    match distanceOuterLoop (utf16 stringA) (utf16 stringB) n m n 1 d with
    | Except.error v => some v
    | Except.ok d2 => d2 n m

/-! ## Joining strings (`join` of `utils.js`) -/

/-- An argument of `join`: a string, or an array of such arguments. -/
inductive JoinArgument
  | string (s : Str)
  | array (parts : List JoinArgument)

mutual
/-- The loop of `join` over the arguments that are left, with the value of
`joined` so far. -/
def joinLoop : List JoinArgument → Str → Str
  | [], joined => joined
  | part :: rest, joined => joinLoop rest (joined ++ joinPart part)
/-- The value of `part` that is added to `joined`: the string itself, or
`join.apply(undefined, part)` for an array. -/
def joinPart : JoinArgument → Str
  | JoinArgument.string s => s
  | JoinArgument.array parts => joinLoop parts []
end

/-- The function `join` of `utils.js`, applied to the list of its arguments. -/
def join (arguments : List JoinArgument) : Str :=
  joinLoop arguments []

/-! ## Search suggestions (`menu.js`) -/

/-- The method `Array.prototype.sort` with a compare function, on the elements of
the array: a stable sort that puts `a` before `b` when `compareFunction(a, b)` is
not positive (an insertion sort here; for a consistent compare function every
sorting algorithm gives a sorted rearrangement). -/
def sort {α : Type} (array : List α) (compareFunction : α → α → Int) : List α :=
  array.insertionSort fun a b => compareFunction a b ≤ 0

/-- The search of `String.prototype.indexOf` from the position `k` of the
original string, `s` being what is left of it; both strings are given by their
code units, and so is the position. -/
def indexOfFrom (value : CodeUnits) : CodeUnits → Nat → Int
  | [], k => if value.isPrefixOf [] then (k : Int) else -1
  | c :: t, k => if value.isPrefixOf (c :: t) then (k : Int) else indexOfFrom value t (k + 1)

/-- The method `String.prototype.indexOf`: the index, in UTF-16 code units, of
the first occurrence of `value` in `s`, or `-1`. -/
def indexOf (s value : Str) : Int :=
  indexOfFrom (utf16 value) (utf16 s) 0

/-- The function `getPartialTagMatches` of `menu.js`. -/
def getPartialTagMatches (tags : List Str) (value : Str) : List Str :=
  sort (tags.filter fun tag => decide (indexOf tag value > -1)) fun a b =>
    let aIndex := indexOf a value
    let bIndex := indexOf b value
    if aIndex > bIndex then 1
    else if aIndex < bIndex then -1
    else 0

/-- The arrays of the program: an array value is a reference, the index of its
elements in the store. -/
abbrev ArrayStore := List (List Str)

/-- The method `Array.prototype.slice` without argument: a new array with the same
elements is added to the store; its reference is returned. -/
def ArrayStore.slice (store : ArrayStore) (array : Nat) : ArrayStore × Nat :=
  (store ++ [store.getD array []], store.length)

/-- The method `Array.prototype.sort` on a reference: the elements of the array are
sorted in place, and the same reference is returned. -/
def ArrayStore.sort (store : ArrayStore) (array : Nat) (compareFunction : Str → Str → Int) :
    ArrayStore × Nat :=
  (store.set array (Router.sort (store.getD array []) compareFunction), array)

/-- The function `getSuggestedTags` of `menu.js`, on the reference `tags`: the
store after the call and the reference returned. -/
def getSuggestedTags (store : ArrayStore) (tags : Nat) (value : Str) : ArrayStore × Nat :=
  let copy := store.slice tags
  copy.1.sort copy.2 fun a b =>
    let distanceA := levenshteinDistance value a
    let distanceB := levenshteinDistance value b
    if JsNumber.lt distanceB distanceA then 1
    else if JsNumber.lt distanceA distanceB then -1
    else 0

/-! ## Pagination (`components/pagination.js`) -/

/-- The constant `PAGINATION_MAX_NUM_LINKS`. -/
def PAGINATION_MAX_NUM_LINKS : Int := 6

/-- The constant `LOWEST_POSSIBLE_PAGE_NUM`. -/
def LOWEST_POSSIBLE_PAGE_NUM : Int := 1

/-- The fields of `paginationInfo` that `render` reads, for page numbers that are
integers. -/
structure PaginationInfo where
  currentPage : Int
  totalPages : Int
deriving DecidableEq

/-- The values of `windowStart` and `windowEnd` when the loop of `render` starts. -/
structure PaginationWindow where
  windowStart : Int
  windowEnd : Int
deriving DecidableEq

/-- A link made by `renderPaginationLink`, by the arguments it is made from: the
page number, whether it is marked as the current page, and the text given (`none`
for a link that shows its page number). -/
structure PaginationLink where
  pageNumber : Int
  isCurrent : Bool
  text : Option Str
deriving DecidableEq

/-- The first statements of `PaginationView.render`, up to the loop: the window of
page numbers, in exact integer arithmetic.
`Math.floor(PAGINATION_MAX_NUM_LINKS / 2)` is the integer quotient. -/
def PaginationView.window (paginationInfo : PaginationInfo) : PaginationWindow :=
  let windowStart := paginationInfo.currentPage - PAGINATION_MAX_NUM_LINKS / 2
  let windowStart := max windowStart LOWEST_POSSIBLE_PAGE_NUM
  let windowEnd := windowStart + PAGINATION_MAX_NUM_LINKS
  let windowEnd := min windowEnd paginationInfo.totalPages
  let windowLength := windowEnd - windowStart
  let windowStart :=
    if windowLength < PAGINATION_MAX_NUM_LINKS then
      max (windowStart - (PAGINATION_MAX_NUM_LINKS - windowLength)) LOWEST_POSSIBLE_PAGE_NUM
    else windowStart
  { windowStart := windowStart, windowEnd := windowEnd }

/-- The method `renderPaginationLink`, as far as the arguments `pageNumber`,
`isCurrent` and `text` go. -/
def PaginationView.renderPaginationLink (pageNumber : Int) (isCurrent : Bool)
    (text : Option Str) : PaginationLink :=
  { pageNumber := pageNumber, isCurrent := isCurrent, text := text }

/-- The loop `for (var pageNumber = ...; pageNumber <= windowEnd; pageNumber++)` of
`render` in exact integer arithmetic, with a bound on the number of iterations
left, the current `pageNumber` and the array `paginationLinks` so far. -/
def PaginationView.renderLoop (currentPage windowEnd : Int) :
    Nat → Int → List PaginationLink → List PaginationLink
  | 0, _, paginationLinks => paginationLinks
  | k + 1, pageNumber, paginationLinks =>
    if pageNumber ≤ windowEnd then
      let isCurrentPage := decide (pageNumber = currentPage)
      let link := PaginationView.renderPaginationLink pageNumber isCurrentPage none
      PaginationView.renderLoop currentPage windowEnd k (pageNumber + 1) (paginationLinks ++ [link])
    else paginationLinks

/-- The text of the "previous page" button. -/
def previousPageText : Str :=
  "<img src=".toList ++ [Char.ofNat 34] ++ "assets/arrow-left.svg".toList ++ [Char.ofNat 34] ++
    " class=".toList ++ [Char.ofNat 34] ++ "pagination-left-arrow".toList ++ [Char.ofNat 34] ++
    "> Previous".toList

/-- The text of the "next page" button. -/
def nextPageText : Str :=
  "Next <img src=".toList ++ [Char.ofNat 34] ++ "assets/arrow-right.svg".toList ++
    [Char.ofNat 34] ++ " class=".toList ++ [Char.ofNat 34] ++
    "pagination-right-arrow".toList ++ [Char.ofNat 34] ++ ">".toList

/-- The method `PaginationView.render` in exact integer arithmetic, up to the
array `paginationLinks` that is put into the list element: the numbered links of
the window, with the "previous page" button in front when the current page is
above 1 and the "next page" button at the end when it is below the number of
pages. -/
def PaginationView.render (paginationInfo : PaginationInfo) : List PaginationLink :=
  let w := PaginationView.window paginationInfo
  let paginationLinks := PaginationView.renderLoop paginationInfo.currentPage w.windowEnd
    (w.windowEnd + 1 - w.windowStart).toNat w.windowStart []
  let paginationLinks :=
    if paginationInfo.currentPage > 1 then
      PaginationView.renderPaginationLink (paginationInfo.currentPage - 1) false
        (some previousPageText) :: paginationLinks
    else paginationLinks
  if paginationInfo.currentPage < paginationInfo.totalPages then
    paginationLinks ++ [PaginationView.renderPaginationLink (paginationInfo.currentPage + 1)
      false (some nextPageText)]
  else paginationLinks

/-! ## Pagination in the number arithmetic of the language -/

/-- The largest integer up to which every integer is a number value of the
language (an IEEE 754 double): `2 ^ 53`. -/
def MAX_EXACT_INTEGER : Int := 9007199254740992

/-- The search for the number of low bits that a natural number `n` loses when it
is written with 53 significant bits: the least `e` from the given one on with
`n / 2 ^ e < 2 ^ 53`, looking at no more than the given number of candidates. -/
def significandShift (n : Nat) : Nat → Nat → Nat
  | 0, e => e
  | k + 1, e => if n / 2 ^ e < 9007199254740992 then e else significandShift n k (e + 1)

/-- The double nearest to a natural number, a tie going to the double with the even
significand: up to `2 ^ 53` the number itself, and above it the nearest multiple of
`2 ^ e` where `e` is the number of bits beyond 53. -/
def roundNatToDouble (n : Nat) : Nat :=
  if n ≤ 9007199254740992 then n
  else
    let e := significandShift n n 0
    let q := n / 2 ^ e
    let r := n % 2 ^ e
    let half := 2 ^ (e - 1)
    if r < half then q * 2 ^ e
    else if half < r then (q + 1) * 2 ^ e
    else if q % 2 = 0 then q * 2 ^ e
    else (q + 1) * 2 ^ e

/-- The number value that the language gives for an arithmetic result whose exact
value is the integer `x`: the nearest double, ties to even.  (Sums and differences
of doubles with 1, 3 or 6 stay below the largest double, so no infinity arises.) -/
def roundToDouble (x : Int) : Int :=
  if 0 ≤ x then (roundNatToDouble x.toNat : Int) else -(roundNatToDouble (-x).toNat : Int)

/-- The first statements of `PaginationView.render`, up to the loop, in the number
arithmetic of the language: every sum and difference is rounded to a double. -/
def Doubles.PaginationView.window (paginationInfo : PaginationInfo) : PaginationWindow :=
  let windowStart := roundToDouble (paginationInfo.currentPage - PAGINATION_MAX_NUM_LINKS / 2)
  let windowStart := max windowStart LOWEST_POSSIBLE_PAGE_NUM
  let windowEnd := roundToDouble (windowStart + PAGINATION_MAX_NUM_LINKS)
  let windowEnd := min windowEnd paginationInfo.totalPages
  let windowLength := roundToDouble (windowEnd - windowStart)
  let windowStart :=
    if windowLength < PAGINATION_MAX_NUM_LINKS then
      max (roundToDouble (windowStart - roundToDouble (PAGINATION_MAX_NUM_LINKS - windowLength)))
        LOWEST_POSSIBLE_PAGE_NUM
    else windowStart
  { windowStart := windowStart, windowEnd := windowEnd }

/-- The loop `for (var pageNumber = ...; pageNumber <= windowEnd; pageNumber++)` of
`render` in the number arithmetic of the language, where `pageNumber++` stores
the double nearest to `pageNumber + 1`.  The first argument is the number of
evaluations of the loop condition that are allowed; `none` says that the loop has
not ended within them. -/
def Doubles.PaginationView.renderLoop (currentPage windowEnd : Int) :
    Nat → Int → List PaginationLink → Option (List PaginationLink)
  | 0, _, _ => none
  | k + 1, pageNumber, paginationLinks =>
    if pageNumber ≤ windowEnd then
      let isCurrentPage := decide (pageNumber = currentPage)
      let link := PaginationView.renderPaginationLink pageNumber isCurrentPage none
      Doubles.PaginationView.renderLoop currentPage windowEnd k (roundToDouble (pageNumber + 1))
        (paginationLinks ++ [link])
    else some paginationLinks

/-- The method `PaginationView.render` in the number arithmetic of the language, up
to the array `paginationLinks` that is put into the list element; `none` when the
loop has not ended within the given number of evaluations of its condition. -/
def Doubles.PaginationView.render (fuel : Nat) (paginationInfo : PaginationInfo) :
    Option (List PaginationLink) :=
  let w := Doubles.PaginationView.window paginationInfo
  (Doubles.PaginationView.renderLoop paginationInfo.currentPage w.windowEnd fuel
      w.windowStart []).map fun paginationLinks =>
    let paginationLinks :=
      if paginationInfo.currentPage > 1 then
        PaginationView.renderPaginationLink (roundToDouble (paginationInfo.currentPage - 1)) false
          (some previousPageText) :: paginationLinks
      else paginationLinks
    if paginationInfo.currentPage < paginationInfo.totalPages then
      paginationLinks ++ [PaginationView.renderPaginationLink
        (roundToDouble (paginationInfo.currentPage + 1)) false (some nextPageText)]
    else paginationLinks

/-! ## Notions used in the statements

Properties of strings the theorems speak about, and the closed form of the base
routing path pattern on base paths made of literal characters. -/

/-- Whether a string contains two consecutive slashes. -/
def containsDoubleSlash : Str → Bool
  | [] => false
  | c :: s => (c == '/' && s.head? == some '/') || containsDoubleSlash s

/-- Whether a string begins with exactly one slash: its first character is a
slash and its second character, if any, is not. -/
def hasSingleLeadingSlash (s : Str) : Bool :=
  s.head? == some '/' && s.tail.head? != some '/'

/-- A character that stands for itself in a pattern read by `newRegExp`. -/
def isLiteralCharacter (c : Char) : Bool :=
  !isSyntaxCharacter c && decide (c.toNat < 65536)

/-- A base routing path made of characters that stand for themselves in a
pattern. -/
def isLiteralPath (baseRoutingPath : Str) : Bool :=
  baseRoutingPath.all isLiteralCharacter

/-- The term of a character without quantifier. -/
def literalTerm (c : Char) : Term :=
  { char := c, quantifier := Quantifier.one }

/-- What is left of `s` after the characters `lits` and, if it follows, the
character `z`; `none` when `s` does not start with `lits`. -/
def stripLiteral : Str → Char → Str → Option Str
  | [], z, s =>
    match s with
    | c :: t => if c == z then some t else some (c :: t)
    | [] => some []
  | _ :: _, _, [] => none
  | a :: lits, z, c :: s => if c == a then stripLiteral lits z s else none

/-- The regular expression object that `newRegExp` builds from the terms of a
literal base routing path `lits ++ [z]` followed by `?`. -/
def literalBaseRegExp (lits : Str) (z : Char) : RegExp where
  exec := fun s =>
    (matchTerms (lits.map literalTerm ++ [{ char := z, quantifier := Quantifier.opt }]) s).map
      fun rest => { index := 0, groups := [some (s.take (s.length - rest.length))] }

/-- The pattern object of `/^\/a.b\/?/`, as `new RegExp('^/a.b/?')` gives it in
the browser: `/a`, any character but a line terminator, `b`, and an optional
slash, at the start of the input. -/
def dottedBasePattern : RegExp where
  exec := fun s =>
    match s with
    | '/' :: 'a' :: c :: 'b' :: rest =>
      if c == '\n' || c == '\r' || c.toNat == 8232 || c.toNat == 8233 then none
      else if rest.head? == some '/' then some { index := 0, groups := [some (s.take 5)] }
      else some { index := 0, groups := [some (s.take 4)] }
    | _ => none

/-- The optimal string alignment distance between the first `i` code units of `a`
and the first `j` code units of `b`, by the usual recurrence: the least number of
insertions, deletions and substitutions of one character and transpositions of two
adjacent characters, no part of the string being edited twice. -/
def optimalStringAlignment (a b : CodeUnits) (i j : Nat) : Nat :=
  match i, j with
  | 0, j => j
  | i + 1, 0 => i + 1
  | i + 1, j + 1 =>
    let cost := if a.get? i = b.get? j then 0 else 1
    let best := min (optimalStringAlignment a b i (j + 1) + 1)
      (min (optimalStringAlignment a b (i + 1) j + 1) (optimalStringAlignment a b i j + cost))
    if 0 < i ∧ 0 < j ∧ a.get? i = b.get? (j - 1) ∧ a.get? (i - 1) = b.get? j then
      min best (optimalStringAlignment a b (i - 1) (j - 1) + 1)
    else best
termination_by i + j
decreasing_by all_goals simp_wf <;> omega

/-- The optimal string alignment distance between two strings. -/
def osaDistance (a b : CodeUnits) : Nat :=
  optimalStringAlignment a b a.length b.length

/-- The matrix `d` just before the cell `i`, `j` is computed: the first row, the
first column and the cells of earlier rows and of earlier columns of row `i` hold
the distance between the prefixes; nothing else is written yet. -/
def distanceMatrixBefore (a b : CodeUnits) (i j : Nat) : DistanceMatrix :=
  fun i2 j2 =>
    if i2 ≤ a.length ∧ j2 ≤ b.length ∧ (i2 = 0 ∨ j2 = 0 ∨ i2 < i ∨ (i2 = i ∧ j2 < j)) then
      some (optimalStringAlignment a b i2 j2)
    else none

mutual
/-- The string leaves of an argument, depth first and from left to right. -/
def stringLeaves : JoinArgument → List Str
  | JoinArgument.string s => [s]
  | JoinArgument.array parts => stringLeavesOfList parts
/-- The string leaves of a list of arguments, depth first and from left to right. -/
def stringLeavesOfList : List JoinArgument → List Str
  | [] => []
  | part :: rest => stringLeaves part ++ stringLeavesOfList rest
end

/-- The `count` consecutive page numbers from `start` on. -/
def pagesFrom (start : Int) : Nat → List Int
  | 0 => []
  | count + 1 => start :: pagesFrom (start + 1) count

/-- The numbered links of an array of pagination links: those made without a text
of their own. -/
def numberedLinks (paginationLinks : List PaginationLink) : List PaginationLink :=
  paginationLinks.filter fun link => link.text.isNone

/-! ## Properties of `arrayFind` and `findRouteHandlerForPath` -/

theorem arrayFind_eq_none_iff {α : Type} (array : List α) (predicate : α → Bool) :
    arrayFind array predicate = none ↔ ∀ value ∈ array, predicate value = false := by
  induction array with
  | nil => simp [arrayFind]
  | cons value rest ih =>
    unfold arrayFind
    by_cases hv : predicate value = true
    · simp [hv]
    · have hf : predicate value = false := by simpa using hv
      simp [hf, ih]

theorem arrayFind_least_index {α : Type} (array : List α) (predicate : α → Bool) (i : Nat)
    (hi : i < array.length) (hacc : predicate (array.get ⟨i, hi⟩) = true)
    (hfirst : ∀ j (hj : j < array.length), j < i → predicate (array.get ⟨j, hj⟩) = false) :
    arrayFind array predicate = some (array.get ⟨i, hi⟩) := by
  induction array generalizing i with
  | nil => exact absurd hi (Nat.not_lt_zero _)
  | cons value rest ih =>
    unfold arrayFind
    cases i with
    | zero =>
      have h0 : predicate value = true := hacc
      simp [h0]
    | succ k =>
      have hv : predicate value = false := hfirst 0 (Nat.succ_pos _) (Nat.succ_pos _)
      have hk : k < rest.length := Nat.lt_of_succ_lt_succ hi
      have hrest := ih k hk hacc
        (fun j hj hjk => hfirst (j + 1) (Nat.succ_lt_succ hj) (Nat.succ_lt_succ hjk))
      simpa [hv] using hrest

theorem findRouteHandlerForPath_eq_arrayFind {H : Type} (handlers : List (RouteHandler H))
    (path : Str) :
    findRouteHandlerForPath handlers path =
      arrayFind handlers (fun handler => handler.canHandlePath path) := by
  unfold findRouteHandlerForPath
  cases arrayFind handlers (fun handler => handler.canHandlePath path) <;> rfl

/-- C1: `findRouteHandlerForPath` returns the registration with the lowest
registration index whose `canHandlePath` accepts the path: when the registration
at index `i` accepts the path and no registration at a lower index does, the
result is the registration at index `i` (first registered, first matched). -/
theorem findRouteHandlerForPath_first_registered {H : Type} (handlers : List (RouteHandler H))
    (path : Str) (i : Nat) (hi : i < handlers.length)
    (hacc : (handlers.get ⟨i, hi⟩).canHandlePath path = true)
    (hfirst : ∀ j (hj : j < handlers.length), j < i →
      (handlers.get ⟨j, hj⟩).canHandlePath path = false) :
    findRouteHandlerForPath handlers path = some (handlers.get ⟨i, hi⟩) := by
  rw [findRouteHandlerForPath_eq_arrayFind]
  exact arrayFind_least_index handlers (fun handler => handler.canHandlePath path) i hi hacc hfirst

/-- Witness of C1 on the registrations A (exact `/`), B (tag pattern) and C
(always true): `/tag/funny` resolves to B, `/` to A and `/unknown` to C. -/
theorem findRouteHandlerForPath_first_registered_witness :
    (findRouteHandlerForPath exampleRoutes "/tag/funny".toList).map
        (fun handler => handler.handlerFunction) = some "B" ∧
    (findRouteHandlerForPath exampleRoutes "/".toList).map
        (fun handler => handler.handlerFunction) = some "A" ∧
    (findRouteHandlerForPath exampleRoutes "/unknown".toList).map
        (fun handler => handler.handlerFunction) = some "C" := by
  refine ⟨?_, ?_, ?_⟩
  · rw [findRouteHandlerForPath_first_registered exampleRoutes "/tag/funny".toList 1
      (by decide) (by decide)
      (by intro j hj hlt; interval_cases j; rfl)]
    rfl
  · rw [findRouteHandlerForPath_first_registered exampleRoutes "/".toList 0
      (by decide) (by decide)
      (by intro j hj hlt; exact absurd hlt (Nat.not_lt_zero _))]
    rfl
  · rw [findRouteHandlerForPath_first_registered exampleRoutes "/unknown".toList 2
      (by decide) (by decide)
      (by intro j hj hlt; interval_cases j <;> rfl)]
    rfl

/-- C3: `findRouteHandlerForPath` returns `undefined` exactly when no registered
matcher accepts the path; in particular it returns `undefined` for every path on
an empty list of handlers.  The function is total: it returns on every input. -/
theorem findRouteHandlerForPath_undefined_iff {H : Type} (handlers : List (RouteHandler H))
    (path : Str) :
    (findRouteHandlerForPath handlers path = none ↔
      ∀ handler ∈ handlers, handler.canHandlePath path = false) ∧
    findRouteHandlerForPath ([] : List (RouteHandler H)) path = none := by
  constructor
  · rw [findRouteHandlerForPath_eq_arrayFind]
    exact arrayFind_eq_none_iff handlers (fun handler => handler.canHandlePath path)
  · rfl

/-! ## Dispatch and navigation at concrete inputs -/

/-- C2: on an empty list of handlers (default base routing path `/`), rendering
the path `/unknown` logs the routing failure and then ends with the `TypeError` of
reading `handlerFunction` of `undefined`; it does not return normally. -/
theorem renderRouteAtPath_unroutable_throws :
    renderRouteAtPath "/".toList ([] : List (RouteHandler String)) "/unknown".toList =
      some { consoleErrors := [routingFailedMessage "/unknown".toList],
             completion := Completion.typeError } := by
  decide

/-- Whenever no registered matcher accepts the logical path, `renderRouteAtPath`
logs one message and ends with a `TypeError`. -/
theorem renderRouteAtPath_of_not_found {H : Type} (baseRoutingPath : Str)
    (handlers : List (RouteHandler H)) (path logicalPath : Str)
    (hpath : removeBaseRoutingPath baseRoutingPath path = some logicalPath)
    (hnone : ∀ handler ∈ handlers, handler.canHandlePath logicalPath = false) :
    renderRouteAtPath baseRoutingPath handlers path =
      some { consoleErrors := [routingFailedMessage logicalPath],
             completion := Completion.typeError } := by
  have hfind : findRouteHandlerForPath handlers logicalPath = none := by
    rw [findRouteHandlerForPath_eq_arrayFind]
    exact (arrayFind_eq_none_iff handlers _).mpr hnone
  simp [renderRouteAtPath, hpath, hfind]

/-- C4: with the base routing path `/app/`, `navigateToRoute("/tag/funny",
"Funny videos")` adds one history entry whose URL is the argument `/tag/funny`
itself, while `prependBaseRoutingPath("/tag/funny")` is `/app/tag/funny`; the
render that follows calls the tag handler for the logical path `/tag/funny`. -/
theorem navigateToRoute_pushes_argument_unchanged :
    navigateToRoute (setBaseRoutingPath (some "/app/".toList)) exampleRoutes
        { entries := [{ title := none, url := "/app/".toList }], current := 0 }
        "/tag/funny".toList (some "Funny videos".toList) =
      ({ entries := [{ title := none, url := "/app/".toList },
                     { title := some "Funny videos".toList, url := "/tag/funny".toList }],
         current := 1 },
       some { consoleErrors := [],
              completion :=
                Completion.called "B" [some "/tag/funny".toList, some "funny".toList] }) ∧
    prependBaseRoutingPath (setBaseRoutingPath (some "/app/".toList))
        (some "/tag/funny".toList) = "/app/tag/funny".toList ∧
    "/tag/funny".toList ≠ "/app/tag/funny".toList := by
  decide

/-- What `navigateToRoute` does to the history on every input: the entries up to
the current one are kept, one entry with the given title and the argument itself
as URL is added and becomes the current one. -/
theorem navigateToRoute_history {H : Type} (baseRoutingPath : Str)
    (handlers : List (RouteHandler H)) (w : Window) (path : Str) (title : Option Str) :
    (navigateToRoute baseRoutingPath handlers w path title).1.entries =
      w.entries.take (w.current + 1) ++ [{ title := title, url := path }] ∧
    (navigateToRoute baseRoutingPath handlers w path title).1.current =
      (w.entries.take (w.current + 1)).length :=
  ⟨rfl, rfl⟩

/-- Counterexample to C10: the registration of the exact string `/` accepts the
path `/`, and its handler function is called with two arguments, not one. -/
theorem renderRouteAtPath_exact_string_arguments :
    ({ handlerFunction := "A", matcher := Matcher.string "/".toList } :
        RouteHandler String).canHandlePath "/".toList = true ∧
    renderRouteAtPath "/".toList
        [({ handlerFunction := "A", matcher := Matcher.string "/".toList } :
          RouteHandler String)] "/".toList =
      some { consoleErrors := [],
             completion := Completion.called "A" [some "/".toList, some "/".toList] } ∧
    ([some "/".toList, some "/".toList] : List (Option Str)).length ≠ 1 := by
  decide

/-- C10 (amended): when the handler found for the logical path was registered with
a function or a string matcher, its handler function is called with exactly two
arguments, both equal to the logical path. -/
theorem renderRouteAtPath_passes_path_twice {H : Type} (baseRoutingPath : Str)
    (handlers : List (RouteHandler H)) (path logicalPath : Str) (handler : RouteHandler H)
    (hpath : removeBaseRoutingPath baseRoutingPath path = some logicalPath)
    (hfound : findRouteHandlerForPath handlers logicalPath = some handler)
    (hkind : (∃ f, handler.matcher = Matcher.function f) ∨
      (∃ s, handler.matcher = Matcher.string s)) :
    renderRouteAtPath baseRoutingPath handlers path =
      some { consoleErrors := [],
             completion :=
               Completion.called handler.handlerFunction
                 [some logicalPath, some logicalPath] } := by
  have hparts : handler.parseRouteParts logicalPath = some [some logicalPath, some logicalPath] := by
    rcases hkind with ⟨f, hf⟩ | ⟨m, hm⟩
    · simp [RouteHandler.parseRouteParts, hf]
    · simp [RouteHandler.parseRouteParts, hm]
  simp [renderRouteAtPath, hpath, hfound, hparts]

/-- Witness of C10 (amended): under the base routing path `/app/`, the full path
`/app/unknown` reaches the always-true function matcher C with `/unknown` twice. -/
theorem renderRouteAtPath_passes_path_twice_witness :
    renderRouteAtPath "/app/".toList exampleRoutes "/app/unknown".toList =
      some { consoleErrors := [],
             completion :=
               Completion.called "C" [some "/unknown".toList, some "/unknown".toList] } :=
  renderRouteAtPath_passes_path_twice "/app/".toList exampleRoutes "/app/unknown".toList
    "/unknown".toList { handlerFunction := "C", matcher := Matcher.function fun _ => true }
    (by decide) (by rfl) (Or.inl ⟨fun _ => true, rfl⟩)

/-! ## The stored base routing path -/

theorem dropWhile_eq_nil_iff_all (p : Char → Bool) (s : Str) :
    s.dropWhile p = [] ↔ s.all p = true := by
  induction s with
  | nil => simp
  | cons c t ih =>
    by_cases hc : p c = true
    · simp [List.dropWhile, hc, ih]
    · have hf : p c = false := by simpa using hc
      simp [List.dropWhile, hf]

theorem all_dropWhile_iff (p : Char → Bool) (s : Str) :
    (s.dropWhile p).all p = true ↔ s.all p = true := by
  induction s with
  | nil => simp
  | cons c t ih =>
    by_cases hc : p c = true
    · simp only [List.dropWhile, hc, List.all_cons, Bool.true_and]
      exact ih
    · have hf : p c = false := by simpa using hc
      simp [List.dropWhile, hf]

theorem trim_eq_nil_iff (s : Str) : trim s = [] ↔ s.all isWhiteSpace = true := by
  unfold trim
  rw [List.reverse_eq_nil_iff, dropWhile_eq_nil_iff_all, List.all_reverse, all_dropWhile_iff]

/-- Counterexample to C7: the input `//` is stored as `//`, which ends with two
slashes, and the input ` /app ` is stored as ` /app /`, which is not the trimmed
input `/app` followed by a slash and starts with a space. -/
theorem setBaseRoutingPath_keeps_slashes_and_spaces :
    setBaseRoutingPath (some "//".toList) = "//".toList ∧
    "//".toList.isSuffixOf (setBaseRoutingPath (some "//".toList)) = true ∧
    setBaseRoutingPath (some " /app ".toList) = " /app /".toList ∧
    setBaseRoutingPath (some " /app ".toList) ≠ trim " /app ".toList ++ "/".toList ∧
    (setBaseRoutingPath (some " /app ".toList)).head?.map isWhiteSpace = some true := by
  decide

theorem setBaseRoutingPath_eq (path : Option Str) :
    setBaseRoutingPath path =
      if isFalsy path || (path.getD []).all isWhiteSpace then ['/']
      else if (path.getD []).getLast? = some '/' then path.getD []
      else path.getD [] ++ ['/'] := by
  have hblank : (trim (path.getD []) == []) = (path.getD []).all isWhiteSpace := by
    rw [Bool.eq_iff_iff, beq_iff_eq]
    exact trim_eq_nil_iff _
  unfold setBaseRoutingPath
  rw [hblank]
  by_cases hb : (isFalsy path || (path.getD []).all isWhiteSpace) = true
  · simp [hb]
  · have hf : (isFalsy path || (path.getD []).all isWhiteSpace) = false := by simpa using hb
    simp only [hf, Bool.false_eq_true, if_false]
    by_cases hl : (path.getD []).getLast? = some '/'
    · simp [hl]
    · simp [hl]

theorem setBaseRoutingPath_getLast (path : Option Str) :
    (setBaseRoutingPath path).getLast? = some '/' := by
  rw [setBaseRoutingPath_eq]
  by_cases hb : (isFalsy path || (path.getD []).all isWhiteSpace) = true
  · simp [hb]
  · have hf : (isFalsy path || (path.getD []).all isWhiteSpace) = false := by simpa using hb
    simp only [hf, Bool.false_eq_true, if_false]
    by_cases hl : (path.getD []).getLast? = some '/'
    · simp [hl]
    · simp [hl]

/-- C7 (amended): the stored base routing path always ends with a slash.  It is
`/` for a missing, empty or white-space-only input, the input itself when the
input already ends with a slash, and the input followed by one slash otherwise;
the input is not trimmed. -/
theorem setBaseRoutingPath_ends_with_slash (path : Option Str) :
    (setBaseRoutingPath path).getLast? = some '/' ∧
    setBaseRoutingPath path =
      if isFalsy path || (path.getD []).all isWhiteSpace then ['/']
      else if (path.getD []).getLast? = some '/' then path.getD []
      else path.getD [] ++ ['/'] :=
  ⟨setBaseRoutingPath_getLast path, setBaseRoutingPath_eq path⟩

/-! ## Doubled slashes in full paths -/

theorem drop_takeWhile_slash (u : Str) :
    u.drop (u.takeWhile (fun c => c == '/')).length = u.dropWhile (fun c => c == '/') := by
  induction u with
  | nil => rfl
  | cons d v ih =>
    by_cases hd : (d == '/') = true
    · simpa [List.takeWhile_cons, List.dropWhile_cons, hd] using ih
    · have hf : (d == '/') = false := by simpa using hd
      simp [List.takeWhile_cons, List.dropWhile_cons, hf]

theorem replace_leadingSlashes (s : Str) :
    replace s leadingSlashes [] = s.dropWhile (fun c => c == '/') := by
  cases s with
  | nil => rfl
  | cons c t =>
    by_cases hc : (c == '/') = true
    · have h := drop_takeWhile_slash (c :: t)
      simp only [replace, leadingSlashes, MatchResult.matchLength]
      simpa [List.takeWhile_cons, List.dropWhile_cons, hc] using h
    · have hf : (c == '/') = false := by simpa using hc
      have hne : ¬ c = '/' := by simpa using hc
      simp [replace, leadingSlashes, List.takeWhile_cons, List.dropWhile_cons, hf, hne]

theorem head?_dropWhile_slash (s : Str) :
    (s.dropWhile (fun c => c == '/')).head? ≠ some '/' := by
  induction s with
  | nil => simp
  | cons c t ih =>
    by_cases hc : (c == '/') = true
    · simpa [List.dropWhile_cons, hc] using ih
    · have hf : (c == '/') = false := by simpa using hc
      simp only [List.dropWhile_cons, hf, Bool.false_eq_true, if_false, List.head?_cons]
      intro h
      have hcs : c = '/' := by simpa using h
      simp [hcs] at hf

theorem containsDoubleSlash_append (a b : Str) (hb : b.head? ≠ some '/') :
    containsDoubleSlash (a ++ b) = (containsDoubleSlash a || containsDoubleSlash b) := by
  induction a with
  | nil => simp [containsDoubleSlash]
  | cons c t ih =>
    cases t with
    | nil =>
      have hb2 : (b.head? == some '/') = false := by simpa using hb
      simp [containsDoubleSlash, hb2]
    | cons d u =>
      have ih2 : containsDoubleSlash (d :: u ++ b) =
          (containsDoubleSlash (d :: u) || containsDoubleSlash b) := ih
      show ((c == '/' && (d :: u ++ b).head? == some '/') || containsDoubleSlash (d :: u ++ b)) =
        (((c == '/' && (d :: u).head? == some '/') || containsDoubleSlash (d :: u)) ||
          containsDoubleSlash b)
      rw [ih2]
      simp [Bool.or_assoc]

/-- Counterexample to C8: with the base routing path `/app/`, the full path of
`/a//b` is `/app/a//b`, which contains two consecutive slashes. -/
theorem prependBaseRoutingPath_keeps_inner_slashes :
    prependBaseRoutingPath (setBaseRoutingPath (some "/app/".toList)) (some "/a//b".toList) =
      "/app/a//b".toList ∧
    containsDoubleSlash (prependBaseRoutingPath (setBaseRoutingPath (some "/app/".toList))
      (some "/a//b".toList)) = true := by
  decide

/-- C8 (amended): the full path is the stored base routing path followed by the
path without its leading slashes, and no doubled slash arises where the two are
joined: the full path contains two consecutive slashes exactly when the stored
base routing path or the path after its leading slashes does. -/
theorem prependBaseRoutingPath_double_slash_iff (input path : Option Str) :
    prependBaseRoutingPath (setBaseRoutingPath input) path =
      setBaseRoutingPath input ++ (path.getD []).dropWhile (fun c => c == '/') ∧
    containsDoubleSlash (prependBaseRoutingPath (setBaseRoutingPath input) path) =
      (containsDoubleSlash (setBaseRoutingPath input) ||
        containsDoubleSlash ((path.getD []).dropWhile (fun c => c == '/'))) := by
  have hpre : prependBaseRoutingPath (setBaseRoutingPath input) path =
      setBaseRoutingPath input ++ (path.getD []).dropWhile (fun c => c == '/') := by
    unfold prependBaseRoutingPath
    rw [replace_leadingSlashes]
  refine ⟨hpre, ?_⟩
  rw [hpre]
  exact containsDoubleSlash_append _ _ (head?_dropWhile_slash _)

/-! ## The base routing path pattern on literal base paths -/

theorem parseStep_literal (terms : List Term) (c : Char) (hc : isLiteralCharacter c = true) :
    parseStep (some terms) c = some (literalTerm c :: terms) := by
  have hs : isSyntaxCharacter c = false := by
    simp only [isLiteralCharacter, Bool.and_eq_true, Bool.not_eq_true'] at hc
    exact hc.1
  have hn : ¬ 65536 ≤ c.toNat := by
    simp only [isLiteralCharacter, Bool.and_eq_true, decide_eq_true_eq] at hc
    omega
  have hq : quantifierOf c = none := by
    simp only [isSyntaxCharacter, Bool.or_eq_false_iff] at hs
    have h1 : (c == '?') = false := hs.1.1.1.1.1.1.1.2
    have h2 : (c == '*') = false := hs.1.1.1.1.1.1.1.1.1.2
    have h3 : (c == '+') = false := hs.1.1.1.1.1.1.1.1.2
    simp [quantifierOf, h1, h2, h3]
  simp [parseStep, hq, hs, hn, literalTerm]

theorem foldl_parseStep_literal (lits : Str) (acc : List Term)
    (hl : lits.all isLiteralCharacter = true) :
    lits.foldl parseStep (some acc) = some ((lits.map literalTerm).reverse ++ acc) := by
  induction lits generalizing acc with
  | nil => rfl
  | cons c t ih =>
    simp only [List.all_cons, Bool.and_eq_true] at hl
    rw [List.foldl_cons, parseStep_literal acc c hl.1, ih _ hl.2]
    simp

theorem parseTerms_literal_opt (lits : Str) (z : Char)
    (hl : lits.all isLiteralCharacter = true) (hz : isLiteralCharacter z = true) :
    parseTerms (lits ++ [z] ++ ['?']) =
      some (lits.map literalTerm ++ [{ char := z, quantifier := Quantifier.opt }]) := by
  unfold parseTerms
  rw [List.foldl_append, List.foldl_append, foldl_parseStep_literal lits [] hl]
  simp only [List.foldl_cons, List.foldl_nil, List.append_nil]
  rw [parseStep_literal _ z hz]
  simp [parseStep, quantifierOf, literalTerm]

theorem matchTerms_literal_opt (lits : Str) (z : Char) (s : Str) :
    matchTerms (lits.map literalTerm ++ [{ char := z, quantifier := Quantifier.opt }]) s =
      stripLiteral lits z s := by
  induction lits generalizing s with
  | nil =>
    cases s with
    | nil => simp [matchTerms, stripLiteral]
    | cons c t =>
      by_cases hc : (c == z) = true
      · simp [matchTerms, stripLiteral, hc]
      · have hf : (c == z) = false := by simpa using hc
        simp [matchTerms, stripLiteral, hf]
  | cons a lits ih =>
    cases s with
    | nil => simp [matchTerms, stripLiteral, literalTerm]
    | cons c t =>
      by_cases hc : (c == a) = true
      · simp only [List.map_cons, List.cons_append, literalTerm, matchTerms, stripLiteral, hc,
          if_true]
        exact ih t
      · have hf : (c == a) = false := by simpa using hc
        simp [matchTerms, stripLiteral, literalTerm, hf]

theorem stripLiteral_eq_some (lits : Str) (z : Char) (s r : Str)
    (h : stripLiteral lits z s = some r) :
    s = lits ++ z :: r ∨ (s = lits ++ r ∧ r.head? ≠ some z) := by
  induction lits generalizing s with
  | nil =>
    cases s with
    | nil =>
      simp only [stripLiteral, Option.some.injEq] at h
      subst h
      right
      simp
    | cons c t =>
      by_cases hc : (c == z) = true
      · have hcz : c = z := by simpa using hc
        simp only [stripLiteral, hc, if_true, Option.some.injEq] at h
        left
        simp [hcz, h]
      · have hf : (c == z) = false := by simpa using hc
        have hne : ¬ c = z := by simpa using hc
        simp only [stripLiteral, hf, Bool.false_eq_true, if_false, Option.some.injEq] at h
        right
        subst h
        simp [hne]
  | cons a lits ih =>
    cases s with
    | nil => simp [stripLiteral] at h
    | cons c t =>
      by_cases hc : (c == a) = true
      · have hca : c = a := by simpa using hc
        simp only [stripLiteral, hc, if_true] at h
        rcases ih t h with h1 | ⟨h1, h2⟩
        · left
          simp [hca, h1]
        · right
          exact ⟨by simp [hca, ← h1], h2⟩
      · have hf : (c == a) = false := by simpa using hc
        simp [stripLiteral, hf] at h

theorem stripLiteral_eq_none (lits : Str) (z : Char) (s : Str)
    (h : stripLiteral lits z s = none) : ¬ lits <+: s := by
  induction lits generalizing s with
  | nil =>
    cases s with
    | nil => simp [stripLiteral] at h
    | cons c t =>
      by_cases hc : (c == z) = true
      · simp [stripLiteral, hc] at h
      · have hf : (c == z) = false := by simpa using hc
        simp [stripLiteral, hf] at h
  | cons a lits ih =>
    cases s with
    | nil => simp
    | cons c t =>
      by_cases hc : (c == a) = true
      · have hca : c = a := by simpa using hc
        simp only [stripLiteral, hc, if_true] at h
        intro hp
        rw [hca, List.cons_prefix_cons] at hp
        exact ih t h hp.2
      · have hne : ¬ c = a := by simpa using hc
        intro hp
        rw [List.cons_prefix_cons] at hp
        exact hne hp.1.symm

theorem stripLiteral_append_cons (lits : Str) (z : Char) (t : Str) :
    stripLiteral lits z (lits ++ z :: t) = some t := by
  induction lits with
  | nil => simp [stripLiteral]
  | cons a lits ih => simpa [stripLiteral] using ih

theorem stripLiteral_append_of_head (lits : Str) (z : Char) (r : Str)
    (hr : r.head? ≠ some z) : stripLiteral lits z (lits ++ r) = some r := by
  induction lits with
  | nil =>
    cases r with
    | nil => rfl
    | cons c t =>
      have hne : ¬ c = z := by simpa using hr
      simp [stripLiteral, hne]
  | cons a lits ih => simpa [stripLiteral] using ih

theorem getBaseRoutingPathRegex_literal (lits : Str) (z : Char)
    (hl : lits.all isLiteralCharacter = true) (hz : isLiteralCharacter z = true) :
    ∃ re, getBaseRoutingPathRegex (lits ++ [z]) = some re ∧
      ∀ s, re.exec s = (stripLiteral lits z s).map fun rest =>
        { index := 0, groups := [some (s.take (s.length - rest.length))] } := by
  have hp := parseTerms_literal_opt lits z hl hz
  have hp2 : parseTerms (lits ++ [z, '?']) =
      some (lits.map literalTerm ++ [{ char := z, quantifier := Quantifier.opt }]) := by
    simpa using hp
  refine ⟨literalBaseRegExp lits z, ?_, ?_⟩
  · unfold getBaseRoutingPathRegex newRegExp literalBaseRegExp
    simp [hp2]
  · intro s
    simp [literalBaseRegExp, matchTerms_literal_opt]

theorem removeBaseRoutingPath_literal (lits : Str) (z : Char)
    (hl : lits.all isLiteralCharacter = true) (hz : isLiteralCharacter z = true) (s : Str) :
    removeBaseRoutingPath (lits ++ [z]) s =
      some ('/' :: ((stripLiteral lits z s).getD s).dropWhile (fun c => c == '/')) := by
  obtain ⟨re, hre, hexec⟩ := getBaseRoutingPathRegex_literal lits z hl hz
  have hrep : replace s re [] = (stripLiteral lits z s).getD s := by
    unfold replace
    rw [hexec s]
    cases hs : stripLiteral lits z s with
    | none => rfl
    | some r =>
      have hsuf : ∃ pre, s = pre ++ r := by
        rcases stripLiteral_eq_some lits z s r hs with h1 | ⟨h1, _⟩
        · exact ⟨lits ++ [z], by simp [h1]⟩
        · exact ⟨lits, h1⟩
      obtain ⟨pre, hpre⟩ := hsuf
      subst hpre
      simp [MatchResult.matchLength]
  unfold removeBaseRoutingPath
  rw [hre]
  simp only [Option.map_some', hrep, replace_leadingSlashes]

/-! ## Round trip, idempotence and the leading slash of logical paths -/

theorem setBaseRoutingPath_decompose (input : Option Str) :
    ∃ lits, setBaseRoutingPath input = lits ++ ['/'] :=
  ⟨(setBaseRoutingPath input).dropLast,
    (List.dropLast_append_getLast? '/' (by simp [setBaseRoutingPath_getLast])).symm⟩

theorem dropWhile_slash_of_head (t : Str) (ht : t.head? ≠ some '/') :
    t.dropWhile (fun c => c == '/') = t := by
  cases t with
  | nil => rfl
  | cons c u =>
    have hne : ¬ c = '/' := by simpa using ht
    simp [List.dropWhile_cons, hne]

theorem hasSingleLeadingSlash_cons (t : Str) (ht : t.head? ≠ some '/') :
    hasSingleLeadingSlash ('/' :: t) = true := by
  simp [hasSingleLeadingSlash, ht]

theorem cons_dropWhile_eq_iff (l : Str) :
    '/' :: l.dropWhile (fun c => c == '/') = l ↔ hasSingleLeadingSlash l = true := by
  cases l with
  | nil => simp [hasSingleLeadingSlash]
  | cons c t =>
    by_cases hc : c = '/'
    · subst hc
      simp only [List.dropWhile_cons, beq_self_eq_true, if_true, List.cons.injEq, true_and,
        hasSingleLeadingSlash, List.head?_cons, List.tail_cons, Bool.true_and, bne_iff_ne, ne_eq]
      constructor
      · intro h
        rw [← h]
        exact head?_dropWhile_slash t
      · exact dropWhile_slash_of_head t
    · simp [hasSingleLeadingSlash, hc]

theorem removeBaseRoutingPath_stored (input : Option Str) (lits : Str)
    (hb : setBaseRoutingPath input = lits ++ ['/'])
    (hlit : isLiteralPath (setBaseRoutingPath input) = true) (s : Str) :
    removeBaseRoutingPath (setBaseRoutingPath input) s =
      some ('/' :: ((stripLiteral lits '/' s).getD s).dropWhile (fun c => c == '/')) := by
  rw [hb] at hlit ⊢
  simp only [isLiteralPath, List.all_append, Bool.and_eq_true, List.all_cons, List.all_nil,
    Bool.and_true] at hlit
  exact removeBaseRoutingPath_literal lits '/' hlit.1 hlit.2 s

/-- Counterexample to C5, at two inputs.  With the base routing path `/app/`, the
path `//a` starts with a slash, its full path is `/app/a`, and the logical path of
that is `/a`, not `//a`.  With the stored base routing path `/a+/`, whose pattern
`^/a+/?` matches only `/a` of the full path `/a+/x`, the path `/x` comes back as
`/+/x`. -/
theorem roundtrip_fails_on_double_leading_slash :
    ("//a".toList.head? = some '/' ∧
      prependBaseRoutingPath (setBaseRoutingPath (some "/app/".toList)) (some "//a".toList) =
        "/app/a".toList ∧
      removeBaseRoutingPath (setBaseRoutingPath (some "/app/".toList))
        (prependBaseRoutingPath (setBaseRoutingPath (some "/app/".toList))
          (some "//a".toList)) = some "/a".toList ∧
      "/a".toList ≠ "//a".toList) ∧
    ("/x".toList.head? = some '/' ∧
      prependBaseRoutingPath (setBaseRoutingPath (some "/a+/".toList)) (some "/x".toList) =
        "/a+/x".toList ∧
      removeBaseRoutingPath (setBaseRoutingPath (some "/a+/".toList))
        (prependBaseRoutingPath (setBaseRoutingPath (some "/a+/".toList))
          (some "/x".toList)) = some "/+/x".toList ∧
      "/+/x".toList ≠ "/x".toList) := by
  decide

/-- C5 (amended): for every stored base routing path made of literal pattern
characters, `removeBaseRoutingPath(prependBaseRoutingPath(L))` returns `L` exactly
when `L` begins with exactly one slash. -/
theorem roundtrip_iff_single_leading_slash (input : Option Str) (logicalPath : Str)
    (hlit : isLiteralPath (setBaseRoutingPath input) = true) :
    removeBaseRoutingPath (setBaseRoutingPath input)
        (prependBaseRoutingPath (setBaseRoutingPath input) (some logicalPath)) =
      some logicalPath ↔
    hasSingleLeadingSlash logicalPath = true := by
  obtain ⟨lits, hb⟩ := setBaseRoutingPath_decompose input
  rw [removeBaseRoutingPath_stored input lits hb hlit]
  have hfull : prependBaseRoutingPath (setBaseRoutingPath input) (some logicalPath) =
      lits ++ '/' :: logicalPath.dropWhile (fun c => c == '/') := by
    unfold prependBaseRoutingPath
    rw [replace_leadingSlashes, hb]
    simp
  rw [hfull, stripLiteral_append_cons, Option.getD_some,
    dropWhile_slash_of_head _ (head?_dropWhile_slash logicalPath), Option.some.injEq]
  exact cons_dropWhile_eq_iff logicalPath

/-- Witness of C5 (amended): base routing path `/app/`, logical path
`/tag/kittens`, full path `/app/tag/kittens` and back. -/
theorem roundtrip_iff_single_leading_slash_witness :
    removeBaseRoutingPath (setBaseRoutingPath (some "/app/".toList))
        (prependBaseRoutingPath (setBaseRoutingPath (some "/app/".toList))
          (some "/tag/kittens".toList)) =
      some "/tag/kittens".toList :=
  (roundtrip_iff_single_leading_slash (some "/app/".toList) "/tag/kittens".toList
    (by decide)).mpr (by decide)

/-- C9: the logical path returned by `removeBaseRoutingPath` begins with exactly
one slash.  The function computes `'/' + path.replace(re, '').replace(/^\/+/, '')`
for the pattern object `re` made from the stored base routing path, and for
every pattern object `re` and every input that string has `/` as its first
character and no `/` as its second one (first part).  The embedded
`removeBaseRoutingPath` is that computation on the pattern object of
`getBaseRoutingPathRegex` (second part), so each of its results has the property
(third part), and on a stored base routing path made of literal pattern
characters it does return a string (fourth part). -/
theorem removeBaseRoutingPath_single_leading_slash (re : RegExp) (input : Option Str)
    (path : Str) :
    hasSingleLeadingSlash (removeBaseRoutingPathWith re path) = true ∧
    removeBaseRoutingPath (setBaseRoutingPath input) path =
      (getBaseRoutingPathRegex (setBaseRoutingPath input)).map
        (fun re => removeBaseRoutingPathWith re path) ∧
    (∀ r, removeBaseRoutingPath (setBaseRoutingPath input) path = some r →
      hasSingleLeadingSlash r = true) ∧
    (isLiteralPath (setBaseRoutingPath input) = true →
      ∃ r, removeBaseRoutingPath (setBaseRoutingPath input) path = some r) := by
  refine ⟨?_, rfl, ?_, ?_⟩
  · unfold removeBaseRoutingPathWith
    simp only [replace_leadingSlashes]
    exact hasSingleLeadingSlash_cons _ (head?_dropWhile_slash _)
  · intro r hr
    unfold removeBaseRoutingPath at hr
    cases hre : getBaseRoutingPathRegex (setBaseRoutingPath input) with
    | none => simp [hre] at hr
    | some re =>
      simp only [hre, Option.map_some', Option.some.injEq, replace_leadingSlashes] at hr
      rw [← hr]
      exact hasSingleLeadingSlash_cons _ (head?_dropWhile_slash _)
  · intro hlit
    obtain ⟨lits, hb⟩ := setBaseRoutingPath_decompose input
    exact ⟨_, removeBaseRoutingPath_stored input lits hb hlit path⟩

/-- Witness of C9: under the base routing path `/app/`, the logical path of
`/app//tag/kittens` is `/tag/kittens`; with the pattern object of the base
routing path `/a.b/`, which has a character outside the literal ones, the
logical path of `/axb//tag/kittens` is `/tag/kittens` as well.  Both begin with
exactly one slash. -/
theorem removeBaseRoutingPath_single_leading_slash_witness :
    removeBaseRoutingPath (setBaseRoutingPath (some "/app/".toList))
        "/app//tag/kittens".toList = some "/tag/kittens".toList ∧
    removeBaseRoutingPathWith dottedBasePattern "/axb//tag/kittens".toList =
      "/tag/kittens".toList ∧
    hasSingleLeadingSlash
      (removeBaseRoutingPathWith dottedBasePattern "/axb//tag/kittens".toList) = true :=
  ⟨by decide, by decide,
    (removeBaseRoutingPath_single_leading_slash dottedBasePattern (some "/a.b/".toList)
      "/axb//tag/kittens".toList).1⟩

theorem stripLiteral_fixed_iff (lits t : Str) (ht : t.head? ≠ some '/') :
    '/' :: ((stripLiteral lits '/' ('/' :: t)).getD ('/' :: t)).dropWhile (fun c => c == '/') =
        '/' :: t ↔
      (lits.length ≤ 1 ∨ ¬ lits <+: '/' :: t) := by
  cases hs : stripLiteral lits '/' ('/' :: t) with
  | none =>
    have hnp := stripLiteral_eq_none lits '/' _ hs
    simp only [Option.getD_none, List.dropWhile_cons, beq_self_eq_true, if_true,
      dropWhile_slash_of_head t ht, true_iff]
    exact Or.inr hnp
  | some r =>
    have hlen : lits.length + r.length ≤ ('/' :: t).length ∧ lits <+: '/' :: t := by
      rcases stripLiteral_eq_some lits '/' _ r hs with h1 | ⟨h1, _⟩
      · rw [h1]
        exact ⟨by simp, List.prefix_append _ _⟩
      · rw [h1]
        exact ⟨by simp, List.prefix_append _ _⟩
    simp only [Option.getD_some]
    constructor
    · intro h
      left
      have hle : (r.dropWhile (fun c => c == '/')).length ≤ r.length :=
        (List.dropWhile_suffix _).length_le
      have h2 := congrArg List.length h
      simp only [List.length_cons] at h2 hlen
      omega
    · intro h
      rcases h with h | h
      · have hr : r = t := by
          match lits, h, hs, hlen with
          | [], _, hs, _ =>
            have h3 : stripLiteral [] '/' ('/' :: t) = some t := stripLiteral_append_cons [] '/' t
            rw [h3] at hs
            exact (Option.some.inj hs).symm
          | [a], _, hs, hlen =>
            have ha : a = '/' := by
              have := hlen.2
              rw [List.cons_prefix_cons] at this
              exact this.1
            subst ha
            have h3 : stripLiteral ['/'] '/' ('/' :: t) = some t :=
              stripLiteral_append_of_head ['/'] '/' t ht
            rw [h3] at hs
            exact (Option.some.inj hs).symm
          | _ :: _ :: _, h, _, _ => simp at h
        rw [hr, dropWhile_slash_of_head t ht]
      · exact absurd hlen.2 h

/-- Counterexample to C6, at two inputs.  With the base routing path `/app/`, the
logical path of `/app/app/x` is `/app/x`, and the logical path of `/app/x` is
`/x`.  With the stored base routing path `/a+/`, the logical path of `//aab` is
`/aab`, which does not begin with `/a+`, and the logical path of `/aab` is `/b`. -/
theorem removeBaseRoutingPath_twice_differs :
    (removeBaseRoutingPath (setBaseRoutingPath (some "/app/".toList)) "/app/app/x".toList =
        some "/app/x".toList ∧
      (removeBaseRoutingPath (setBaseRoutingPath (some "/app/".toList)) "/app/app/x".toList).bind
          (removeBaseRoutingPath (setBaseRoutingPath (some "/app/".toList))) =
        some "/x".toList ∧
      "/x".toList ≠ "/app/x".toList) ∧
    (removeBaseRoutingPath (setBaseRoutingPath (some "/a+/".toList)) "//aab".toList =
        some "/aab".toList ∧
      (removeBaseRoutingPath (setBaseRoutingPath (some "/a+/".toList)) "//aab".toList).bind
          (removeBaseRoutingPath (setBaseRoutingPath (some "/a+/".toList))) =
        some "/b".toList ∧
      "/b".toList ≠ "/aab".toList) := by
  decide

/-- C6 (amended): for every stored base routing path made of literal pattern
characters and every string `x` with logical path `y`, applying
`removeBaseRoutingPath` to `y` returns `y` again exactly when the stored base
routing path has at most two characters or `y` does not begin with the stored base
routing path without its final slash. -/
theorem removeBaseRoutingPath_idempotent_iff (input : Option Str) (x y : Str)
    (hlit : isLiteralPath (setBaseRoutingPath input) = true)
    (hy : removeBaseRoutingPath (setBaseRoutingPath input) x = some y) :
    removeBaseRoutingPath (setBaseRoutingPath input) y = some y ↔
      ((setBaseRoutingPath input).length ≤ 2 ∨ ¬ (setBaseRoutingPath input).dropLast <+: y) := by
  obtain ⟨lits, hb⟩ := setBaseRoutingPath_decompose input
  rw [removeBaseRoutingPath_stored input lits hb hlit] at hy ⊢
  have hy2 := Option.some.inj hy
  have hdl : (setBaseRoutingPath input).dropLast = lits := by rw [hb]; simp
  have hlen : (setBaseRoutingPath input).length = lits.length + 1 := by rw [hb]; simp
  rw [hdl, hlen, Option.some.injEq, ← hy2]
  have h := stripLiteral_fixed_iff lits _ (head?_dropWhile_slash ((stripLiteral lits '/' x).getD x))
  rw [h]
  constructor
  · rintro (h1 | h1)
    · exact Or.inl (by omega)
    · exact Or.inr h1
  · rintro (h1 | h1)
    · exact Or.inl (by omega)
    · exact Or.inr h1

/-- Witness of C6 (amended): under the base routing path `/app/`, the logical path
`/tag/kittens` of `/app/tag/kittens` does not begin with `/app` and is returned
unchanged. -/
theorem removeBaseRoutingPath_idempotent_iff_witness :
    removeBaseRoutingPath (setBaseRoutingPath (some "/app/".toList)) "/tag/kittens".toList =
      some "/tag/kittens".toList :=
  (removeBaseRoutingPath_idempotent_iff (some "/app/".toList) "/app/tag/kittens".toList
    "/tag/kittens".toList (by decide) (by decide)).mpr (Or.inr (by decide))

/-! ## Arguments of handlers registered with a pattern, and exact strings -/

theorem tagRoutePattern_exec (t : Str) (ht : t.all (fun c => !isLineTerminator c) = true) :
    tagRoutePattern.exec ("/tag/".toList ++ t) =
      some { index := 0, groups := [some ("/tag/".toList ++ t), some t] } := by
  have h5 : "/tag/".toList = ['/', 't', 'a', 'g', '/'] := rfl
  rw [h5]
  simp only [tagRoutePattern]
  have htake : (['/', 't', 'a', 'g', '/'] ++ t).take 5 = ['/', 't', 'a', 'g', '/'] := by simp
  have hdrop : (['/', 't', 'a', 'g', '/'] ++ t).drop 5 = t := by simp
  rw [htake, hdrop, h5, ht]
  simp

theorem renderRouteAtPath_of_regExp {H : Type} (baseRoutingPath : Str)
    (handlers : List (RouteHandler H)) (path logicalPath : Str) (handler : RouteHandler H)
    (re : RegExp) (m : MatchResult)
    (hpath : removeBaseRoutingPath baseRoutingPath path = some logicalPath)
    (hfound : findRouteHandlerForPath handlers logicalPath = some handler)
    (hre : handler.matcher = Matcher.regExp re) (hm : re.exec logicalPath = some m) :
    renderRouteAtPath baseRoutingPath handlers path =
      some { consoleErrors := [],
             completion := Completion.called handler.handlerFunction m.groups } := by
  have hparts : handler.parseRouteParts logicalPath = some m.groups := by
    simp [RouteHandler.parseRouteParts, hre, hm]
  simp [renderRouteAtPath, hpath, hfound, hparts]

theorem removeBaseRoutingPath_root_tag (t : Str) :
    removeBaseRoutingPath "/".toList ("/tag/".toList ++ t) = some ("/tag/".toList ++ t) := by
  have h := removeBaseRoutingPath_literal [] '/' rfl (by decide) ("/tag/".toList ++ t)
  have h1 : "/".toList = [] ++ ['/'] := rfl
  have h5 : "/tag/".toList = ['/', 't', 'a', 'g', '/'] := rfl
  rw [h1, h, h5]
  simp [stripLiteral, List.dropWhile_cons]

/-- C11: when the handler found for the logical path was registered with a
pattern, its handler function is called with the entries of the match array: the
whole match, then the capture groups in order.  For every tag name `t` without
line terminator, a logical path `/tag/` ++ `t` resolved to a registration of the
pattern `^/tag/(.*)$` calls the handler function with exactly `/tag/` ++ `t` and
`t`; on the example routes under the base routing path `/` this is the handler of
registration B, for every such `t`. -/
theorem renderRouteAtPath_pattern_arguments {H : Type} (baseRoutingPath : Str)
    (handlers : List (RouteHandler H)) (path : Str) (handler : RouteHandler H) :
    (∀ (logicalPath : Str) (re : RegExp) (m : MatchResult),
      removeBaseRoutingPath baseRoutingPath path = some logicalPath →
      findRouteHandlerForPath handlers logicalPath = some handler →
      handler.matcher = Matcher.regExp re → re.exec logicalPath = some m →
      renderRouteAtPath baseRoutingPath handlers path =
        some { consoleErrors := [],
               completion := Completion.called handler.handlerFunction m.groups }) ∧
    (∀ t : Str, t.all (fun c => !isLineTerminator c) = true →
      removeBaseRoutingPath baseRoutingPath path = some ("/tag/".toList ++ t) →
      findRouteHandlerForPath handlers ("/tag/".toList ++ t) = some handler →
      handler.matcher = Matcher.regExp tagRoutePattern →
      renderRouteAtPath baseRoutingPath handlers path =
        some { consoleErrors := [],
               completion :=
                 Completion.called handler.handlerFunction
                   [some ("/tag/".toList ++ t), some t] }) ∧
    (∀ t : Str, t.all (fun c => !isLineTerminator c) = true →
      renderRouteAtPath "/".toList exampleRoutes ("/tag/".toList ++ t) =
        some { consoleErrors := [],
               completion :=
                 Completion.called "B" [some ("/tag/".toList ++ t), some t] }) := by
  refine ⟨?_, ?_, ?_⟩
  · intro logicalPath re m hpath hfound hre hm
    exact renderRouteAtPath_of_regExp baseRoutingPath handlers path logicalPath handler re m
      hpath hfound hre hm
  · intro t ht hpath hfound hre
    exact renderRouteAtPath_of_regExp baseRoutingPath handlers path _ handler tagRoutePattern _
      hpath hfound hre (tagRoutePattern_exec t ht)
  · intro t ht
    have hfound : findRouteHandlerForPath exampleRoutes ("/tag/".toList ++ t) =
        some { handlerFunction := "B", matcher := Matcher.regExp tagRoutePattern } := by
      have hexec := tagRoutePattern_exec t ht
      have h5 : "/tag/".toList = ['/', 't', 'a', 'g', '/'] := rfl
      have h1 : "/".toList = ['/'] := rfl
      have hexec2 : (tagRoutePattern.exec ('/' :: 't' :: 'a' :: 'g' :: '/' :: t)).isSome =
          true := by
        rw [h5] at hexec
        simp only [List.cons_append, List.nil_append] at hexec
        rw [hexec]
        rfl
      simp [findRouteHandlerForPath, exampleRoutes, registerRouteHandler, arrayFind,
        RouteHandler.canHandlePath, RegExp.test, hexec2, h5, h1]
    exact renderRouteAtPath_of_regExp "/".toList exampleRoutes _ _ _ tagRoutePattern _
      (removeBaseRoutingPath_root_tag t) hfound rfl (tagRoutePattern_exec t ht)

/-- Witness of C11: under the base routing path `/app/`, the full path
`/app/tag/funny` calls the handler of registration B with `/tag/funny` and
`funny`. -/
theorem renderRouteAtPath_pattern_arguments_witness :
    renderRouteAtPath "/app/".toList exampleRoutes "/app/tag/funny".toList =
      some { consoleErrors := [],
             completion :=
               Completion.called "B" [some "/tag/funny".toList, some "funny".toList] } :=
  (renderRouteAtPath_pattern_arguments "/app/".toList exampleRoutes "/app/tag/funny".toList
    { handlerFunction := "B", matcher := Matcher.regExp tagRoutePattern }).2.1
    "funny".toList (by decide) (by decide) (by rfl) rfl

/-- C12: a registration made with the exact-string matcher `s` accepts the path
`p` if and only if `p = s`; in particular a longer path, another case and an added
trailing slash are rejected. -/
theorem canHandlePath_string_iff {H : Type} (handlers : List (RouteHandler H))
    (handlerFunction : H) (s p : Str) :
    (∀ handler ∈ registerRouteHandler handlers (Matcher.string s) handlerFunction,
      handler.matcher = Matcher.string s → (handler.canHandlePath p = true ↔ p = s)) ∧
    (∃ handler ∈ registerRouteHandler handlers (Matcher.string s) handlerFunction,
      handler.matcher = Matcher.string s ∧ handler.handlerFunction = handlerFunction) ∧
    ({ handlerFunction := "A", matcher := Matcher.string "/tag".toList } :
        RouteHandler String).canHandlePath "/tag/funny".toList = false ∧
    ({ handlerFunction := "A", matcher := Matcher.string "/tag".toList } :
        RouteHandler String).canHandlePath "/Tag".toList = false ∧
    ({ handlerFunction := "A", matcher := Matcher.string "/tag".toList } :
        RouteHandler String).canHandlePath "/tag/".toList = false := by
  refine ⟨?_, ?_, by decide, by decide, by decide⟩
  · intro handler _ hm
    simp [RouteHandler.canHandlePath, hm]
  · exact ⟨{ handlerFunction := handlerFunction, matcher := Matcher.string s },
      by simp [registerRouteHandler], rfl, rfl⟩

/-! ## Route links -/

/-- C13: with the stored base routing path `/app/`, a link declared with the target
`/apple/pie` passes `/apple/pie` to `navigateToRoute`, which does not start with
`/app/`: the base routing path pattern `^/app/?` accepts it, so nothing is
prepended.  With the stored base routing path `/` the pattern `^/?` accepts every
target, and the target `tag/puppies` is passed on as it is.  With `/app/` and
`tag/puppies` the path passed is `/app/tag/puppies`. -/
theorem routeLinkClickPath_without_base :
    (routeLinkClickPath (setBaseRoutingPath (some "/app/".toList))
        { href := none, routerLink := some "/apple/pie".toList, bound := true,
          clickHandlers := 1 } = some (some "/apple/pie".toList) ∧
      ¬ setBaseRoutingPath (some "/app/".toList) <+: "/apple/pie".toList) ∧
    (routeLinkClickPath (setBaseRoutingPath (some "/".toList))
        { href := none, routerLink := some "tag/puppies".toList, bound := true,
          clickHandlers := 1 } = some (some "tag/puppies".toList) ∧
      ¬ setBaseRoutingPath (some "/".toList) <+: "tag/puppies".toList) ∧
    routeLinkClickPath (setBaseRoutingPath (some "/app/".toList))
        { href := none, routerLink := some "tag/puppies".toList, bound := true,
          clickHandlers := 1 } = some (some "/app/tag/puppies".toList) := by
  decide

/-- C14: `bindRouteLinks` twice in succession gives the same elements as once;
afterwards every element with a `data-router-link` attribute carries the bound
marker; an element that carried the marker before is left as it was, and an
unmarked router link gains exactly one click handler.  Hence, when before the call
every router link has one click handler if it is marked and none if it is not, every
router link has exactly one click handler after the call. -/
theorem bindRouteLinks_idempotent (container : List LinkElement) :
    bindRouteLinks (bindRouteLinks container) = bindRouteLinks container ∧
    (∀ link ∈ bindRouteLinks container, link.routerLink.isSome = true → link.bound = true) ∧
    (bindRouteLinks container).length = container.length ∧
    (∀ (i : Nat) (h : i < container.length) (h2 : i < (bindRouteLinks container).length),
      ((container.get ⟨i, h⟩).bound = true ∨ (container.get ⟨i, h⟩).routerLink = none →
        (bindRouteLinks container).get ⟨i, h2⟩ = container.get ⟨i, h⟩) ∧
      ((container.get ⟨i, h⟩).bound = false → (container.get ⟨i, h⟩).routerLink.isSome = true →
        ((bindRouteLinks container).get ⟨i, h2⟩).clickHandlers =
          (container.get ⟨i, h⟩).clickHandlers + 1)) ∧
    ((∀ link ∈ container, link.routerLink.isSome = true →
        link.clickHandlers = if link.bound then 1 else 0) →
      ∀ link ∈ bindRouteLinks container, link.routerLink.isSome = true →
        link.clickHandlers = 1) := by
  refine ⟨?_, ?_, ?_, ?_, ?_⟩
  · unfold bindRouteLinks
    rw [List.map_map]
    apply List.map_congr_left
    intro link _
    obtain ⟨href, rl, b, n⟩ := link
    cases rl <;> cases b <;> rfl
  · intro link hmem hrl
    unfold bindRouteLinks at hmem
    obtain ⟨l0, _, hl0⟩ := List.mem_map.mp hmem
    obtain ⟨href, rl, b, n⟩ := l0
    subst hl0
    cases rl <;> cases b <;> simp_all
  · simp [bindRouteLinks]
  · intro i h h2
    simp only [bindRouteLinks, List.get_eq_getElem, List.getElem_map]
    generalize container[i] = link
    obtain ⟨href, rl, b, n⟩ := link
    cases rl <;> cases b <;> simp
  · intro hcons link hmem hrl
    unfold bindRouteLinks at hmem
    obtain ⟨l0, hl0mem, hl0⟩ := List.mem_map.mp hmem
    have h0 := hcons l0 hl0mem
    obtain ⟨href, rl, b, n⟩ := l0
    subst hl0
    cases rl <;> cases b <;> simp_all

/-- Witness of C14: a fresh router link, another element and a router link bound
before; the fresh link is bound once, by the first call. -/
theorem bindRouteLinks_idempotent_witness :
    bindRouteLinks (bindRouteLinks
      [{ href := none, routerLink := some "/tag/funny".toList, bound := false,
         clickHandlers := 0 },
       { href := some "/about".toList, routerLink := none, bound := false, clickHandlers := 0 },
       { href := none, routerLink := some "/".toList, bound := true, clickHandlers := 1 }]) =
      [{ href := none, routerLink := some "/tag/funny".toList, bound := true,
         clickHandlers := 1 },
       { href := some "/about".toList, routerLink := none, bound := false, clickHandlers := 0 },
       { href := none, routerLink := some "/".toList, bound := true, clickHandlers := 1 }] :=
  ((bindRouteLinks_idempotent _).1).trans (by decide)

/-- C15: the click handler takes as navigation target the `href` attribute of the
link when it is present and not empty, and the `data-router-link` attribute
otherwise; the path passed to `navigateToRoute` is that target, with the base
routing path prepended when the base routing path pattern does not accept it. -/
theorem routeLinkClickPath_target (baseRoutingPath : Str) (link : LinkElement) :
    (∀ (c : Char) (s : Str), link.href = some (c :: s) →
      orElse link.href link.routerLink = some (c :: s)) ∧
    (link.href = none ∨ link.href = some [] →
      orElse link.href link.routerLink = link.routerLink) ∧
    routeLinkClickPath baseRoutingPath link =
      (getBaseRoutingPathRegex baseRoutingPath).map fun re =>
        if re.test (toStringValue (orElse link.href link.routerLink)) = true then
          orElse link.href link.routerLink
        else some (prependBaseRoutingPath baseRoutingPath (orElse link.href link.routerLink)) := by
  refine ⟨?_, ?_, ?_⟩
  · intro c s h
    simp [orElse, h]
  · intro h
    rcases h with h | h <;> simp [orElse, h]
  · unfold routeLinkClickPath
    congr 1
    funext re
    by_cases ht : re.test (toStringValue (orElse link.href link.routerLink)) = true
    · simp [ht]
    · simp [ht]

/-- Witness of C15: under the base routing path `/app/`, a link with the `href`
`/details/7` and the `data-router-link` `/tag/funny` navigates to
`/app/details/7`; without `href`, or with an empty one, to `/app/tag/funny`. -/
theorem routeLinkClickPath_target_witness :
    routeLinkClickPath "/app/".toList
        { href := some "/details/7".toList, routerLink := some "/tag/funny".toList,
          bound := true, clickHandlers := 1 } = some (some "/app/details/7".toList) ∧
    routeLinkClickPath "/app/".toList
        { href := none, routerLink := some "/tag/funny".toList,
          bound := true, clickHandlers := 1 } = some (some "/app/tag/funny".toList) ∧
    routeLinkClickPath "/app/".toList
        { href := some [], routerLink := some "/tag/funny".toList,
          bound := true, clickHandlers := 1 } = some (some "/app/tag/funny".toList) := by
  have h := routeLinkClickPath_target "/app/".toList
    { href := some "/details/7".toList, routerLink := some "/tag/funny".toList,
      bound := true, clickHandlers := 1 }
  exact ⟨h.2.2.trans (by decide), by decide, by decide⟩

/-! ## Query parameters -/

theorem replace_firstOccurrence_of_not_mem (c : Char) (s r : Str) (h : c ∉ s) :
    replace s (firstOccurrence c) r = s := by
  simp [replace, firstOccurrence, h]

theorem isPrefixOf_name_eq (name t : Str) :
    (name ++ ['=']).isPrefixOf t = true ↔ ∃ rest, t = name ++ '=' :: rest := by
  rw [List.isPrefixOf_iff_prefix]
  constructor
  · rintro ⟨r, hr⟩
    exact ⟨r, by simp [← hr]⟩
  · rintro ⟨r, hr⟩
    exact ⟨r, by simp [hr]⟩

theorem execUrlParameter_eq_none (name s : Str) (i : Nat)
    (h : ∀ pre sep rest, s = pre ++ sep :: (name ++ '=' :: rest) → ¬ (sep = '?' ∨ sep = '&')) :
    execUrlParameter name s i = none := by
  induction s generalizing i with
  | nil => rfl
  | cons c t ih =>
    unfold execUrlParameter
    have hhead : ((c == '?' || c == '&') && (name ++ ['=']).isPrefixOf t) = false := by
      by_contra hne
      have htrue : ((c == '?' || c == '&') && (name ++ ['=']).isPrefixOf t) = true := by
        simpa using hne
      rw [Bool.and_eq_true] at htrue
      obtain ⟨rest, hrest⟩ := (isPrefixOf_name_eq name t).mp htrue.2
      exact h [] c rest (by simp [hrest]) (by simpa using htrue.1)
    rw [hhead]
    simp only [Bool.false_eq_true, if_false]
    exact ih (i + 1) (fun pre sep rest hs => h (c :: pre) sep rest (by simp [hs]))

theorem execUrlParameter_first (name pre rest : Str) (sep : Char) (i : Nat)
    (hsep : sep = '?' ∨ sep = '&')
    (hfirst : ∀ pre2 sep2 rest2, pre ++ sep :: (name ++ '=' :: rest) =
        pre2 ++ sep2 :: (name ++ '=' :: rest2) →
      (sep2 = '?' ∨ sep2 = '&') → pre.length ≤ pre2.length) :
    execUrlParameter name (pre ++ sep :: (name ++ '=' :: rest)) i =
      some { index := i + pre.length,
             groups := [some (sep :: (name ++ ['='] ++
                          rest.takeWhile fun x => x != '&' && x != '#')),
                        some (rest.takeWhile fun x => x != '&' && x != '#')] } := by
  induction pre generalizing i with
  | nil =>
    have hp : (name ++ ['=']).isPrefixOf (name ++ '=' :: rest) = true :=
      (isPrefixOf_name_eq name _).mpr ⟨rest, rfl⟩
    have hs : (sep == '?' || sep == '&') = true := by simpa using hsep
    have hd : (name ++ '=' :: rest).drop (name.length + 1) = rest := by
      have : name ++ '=' :: rest = (name ++ ['=']) ++ rest := by simp
      rw [this]
      exact List.drop_left' (by simp)
    simp only [List.nil_append, execUrlParameter, hs, hp, Bool.and_self, if_true, hd,
      List.length_nil, Nat.add_zero]
  | cons p pre ih =>
    have hhead : ((p == '?' || p == '&') &&
        (name ++ ['=']).isPrefixOf (pre ++ sep :: (name ++ '=' :: rest))) = false := by
      by_contra hne
      have htrue : ((p == '?' || p == '&') &&
          (name ++ ['=']).isPrefixOf (pre ++ sep :: (name ++ '=' :: rest))) = true := by
        simpa using hne
      rw [Bool.and_eq_true] at htrue
      obtain ⟨rest2, hrest2⟩ := (isPrefixOf_name_eq name _).mp htrue.2
      have hle := hfirst [] p rest2 (by simp [hrest2]) (by simpa using htrue.1)
      simp at hle
    have hrec := ih (i + 1) (fun pre2 sep2 rest2 hs hsep2 => by
      have hle := hfirst (p :: pre2) sep2 rest2 (by simp [hs]) hsep2
      simpa using hle)
    show execUrlParameter name (p :: (pre ++ sep :: (name ++ '=' :: rest))) i = _
    unfold execUrlParameter
    rw [hhead]
    simp only [Bool.false_eq_true, if_false]
    rw [hrec]
    simp only [List.length_cons]
    have : i + 1 + pre.length = i + (pre.length + 1) := by omega
    rw [this]

theorem getUrlParameter_literal (decodeURIComponent : Str → Option Str) (search name : Str)
    (hname : isLiteralPath name = true) :
    getUrlParameter decodeURIComponent search name =
      some (match execUrlParameter name search 0 with
        | none => some []
        | some results =>
          match results.groups.get? 1 with
          | some (some value) => decodeURIComponent (replacePlusBySpace value)
          | _ => none) := by
  have hall : ∀ c ∈ name, isLiteralCharacter c = true := by
    simpa [isLiteralPath] using hname
  have hopen : '[' ∉ name := fun hmem => by
    have := hall _ hmem
    simp [isLiteralCharacter, isSyntaxCharacter] at this
  have hclose : ']' ∉ name := fun hmem => by
    have := hall _ hmem
    simp [isLiteralCharacter, isSyntaxCharacter] at this
  have hnew : newUrlParameterRegExp name =
      some { exec := fun s => execUrlParameter name s 0 } := by
    unfold newUrlParameterRegExp
    have : name.all (fun c => !isSyntaxCharacter c && decide (c.toNat < 65536)) = true := hname
    rw [if_pos this]
  unfold getUrlParameter
  simp only [replace_firstOccurrence_of_not_mem _ _ _ hopen,
    replace_firstOccurrence_of_not_mem _ _ _ hclose, hnew, Option.map_some']

/-- C16: for a parameter name made of characters that stand for themselves in a
pattern (letters, digits and underscores are such characters) and every query
string, `getUrlParameter` returns the empty string when the query string contains
neither `?` ++ name ++ `=` nor `&` ++ name ++ `=`; otherwise, at the first such
occurrence, it returns what `decodeURIComponent` makes of the characters that
follow up to the next `&` or `#` (or the end), every `+` replaced by a space. -/
theorem getUrlParameter_first_occurrence (decodeURIComponent : Str → Option Str)
    (search name : Str) (hname : isLiteralPath name = true) :
    ((¬ ('?' :: (name ++ ['='])) <:+: search ∧ ¬ ('&' :: (name ++ ['='])) <:+: search) →
      getUrlParameter decodeURIComponent search name = some (some [])) ∧
    (∀ (pre rest : Str) (sep : Char), search = pre ++ sep :: (name ++ '=' :: rest) →
      (sep = '?' ∨ sep = '&') →
      (∀ pre2 sep2 rest2, search = pre2 ++ sep2 :: (name ++ '=' :: rest2) →
        (sep2 = '?' ∨ sep2 = '&') → pre.length ≤ pre2.length) →
      getUrlParameter decodeURIComponent search name =
        some (decodeURIComponent
          (replacePlusBySpace (rest.takeWhile fun x => x != '&' && x != '#')))) := by
  rw [getUrlParameter_literal decodeURIComponent search name hname]
  constructor
  · rintro ⟨hq, ha⟩
    rw [execUrlParameter_eq_none name search 0]
    intro pre sep rest hs hsep
    rcases hsep with hsep | hsep
    · exact hq ⟨pre, rest, by simp [hs, hsep]⟩
    · exact ha ⟨pre, rest, by simp [hs, hsep]⟩
  · intro pre rest sep hs hsep hfirst
    subst hs
    rw [execUrlParameter_first name pre rest sep 0 hsep hfirst]
    rfl

/-- Witness of C16: in the query string `?tag=a+b&page=2#top` the parameter `tag`
is `a b` and the parameter `ag`, which occurs only inside `tag`, is empty (with a
`decodeURIComponent` that returns its argument). -/
theorem getUrlParameter_first_occurrence_witness :
    getUrlParameter some "?tag=a+b&page=2#top".toList "tag".toList = some (some "a b".toList) ∧
    getUrlParameter some "?tag=a+b&page=2#top".toList "ag".toList = some (some []) :=
  ⟨((getUrlParameter_first_occurrence some "?tag=a+b&page=2#top".toList "tag".toList
      (by decide)).2 [] "a+b&page=2#top".toList '?' rfl (Or.inl rfl)
      (fun _ _ _ _ _ => Nat.zero_le _)).trans (by decide),
   (getUrlParameter_first_occurrence some "?tag=a+b&page=2#top".toList "ag".toList
      (by decide)).1 ⟨by decide, by decide⟩⟩

/-! ## The distance computed by `levenshteinDistance` -/

theorem optimalStringAlignment_zero_left (a b : CodeUnits) (j : Nat) :
    optimalStringAlignment a b 0 j = j := by
  unfold optimalStringAlignment
  rfl

theorem optimalStringAlignment_zero_right (a b : CodeUnits) (i : Nat) :
    optimalStringAlignment a b i 0 = i := by
  cases i with
  | zero => exact optimalStringAlignment_zero_left a b 0
  | succ k =>
    unfold optimalStringAlignment
    rfl

theorem optimalStringAlignment_succ (a b : CodeUnits) (i j : Nat) :
    optimalStringAlignment a b (i + 1) (j + 1) =
      if 0 < i ∧ 0 < j ∧ a.get? i = b.get? (j - 1) ∧ a.get? (i - 1) = b.get? j then
        min (min (optimalStringAlignment a b i (j + 1) + 1)
          (min (optimalStringAlignment a b (i + 1) j + 1)
            (optimalStringAlignment a b i j + if a.get? i = b.get? j then 0 else 1)))
          (optimalStringAlignment a b (i - 1) (j - 1) + 1)
      else
        min (optimalStringAlignment a b i (j + 1) + 1)
          (min (optimalStringAlignment a b (i + 1) j + 1)
            (optimalStringAlignment a b i j + if a.get? i = b.get? j then 0 else 1)) := by
  rw [optimalStringAlignment]

theorem optimalStringAlignment_le_diagonal (a b : CodeUnits) (i j : Nat) :
    optimalStringAlignment a b (i + 1) (j + 1) ≤
      optimalStringAlignment a b i j + if a.get? i = b.get? j then 0 else 1 := by
  rw [optimalStringAlignment_succ]
  split_ifs <;> omega

theorem initFirstColumn_apply (d : DistanceMatrix) (k i2 j2 : Nat) :
    initFirstColumn d k i2 j2 = if j2 = 0 ∧ i2 ≤ k then some i2 else d i2 j2 := by
  induction k generalizing d with
  | zero =>
    simp only [initFirstColumn, DistanceMatrix.set]
    by_cases h : i2 = 0 ∧ j2 = 0
    · have h2 : j2 = 0 ∧ i2 ≤ 0 := by omega
      rw [if_pos h, if_pos h2, h.1]
    · have h2 : ¬ (j2 = 0 ∧ i2 ≤ 0) := by omega
      rw [if_neg h, if_neg h2]
  | succ k ih =>
    simp only [initFirstColumn, ih, DistanceMatrix.set]
    by_cases h1 : j2 = 0 ∧ i2 ≤ k
    · have h2 : j2 = 0 ∧ i2 ≤ k + 1 := by omega
      rw [if_pos h1, if_pos h2]
    · by_cases h3 : i2 = k + 1 ∧ j2 = 0
      · have h2 : j2 = 0 ∧ i2 ≤ k + 1 := by omega
        rw [if_neg h1, if_pos h3, if_pos h2, h3.1]
      · have h2 : ¬ (j2 = 0 ∧ i2 ≤ k + 1) := by omega
        rw [if_neg h1, if_neg h3, if_neg h2]

theorem initFirstRow_apply (d : DistanceMatrix) (k i2 j2 : Nat) :
    initFirstRow d k i2 j2 = if i2 = 0 ∧ j2 ≤ k then some j2 else d i2 j2 := by
  induction k generalizing d with
  | zero =>
    simp only [initFirstRow, DistanceMatrix.set]
    by_cases h : i2 = 0 ∧ j2 = 0
    · have h2 : i2 = 0 ∧ j2 ≤ 0 := by omega
      rw [if_pos h, if_pos h2, h.2]
    · have h2 : ¬ (i2 = 0 ∧ j2 ≤ 0) := by omega
      rw [if_neg h, if_neg h2]
  | succ k ih =>
    simp only [initFirstRow, ih, DistanceMatrix.set]
    by_cases h1 : i2 = 0 ∧ j2 ≤ k
    · have h2 : i2 = 0 ∧ j2 ≤ k + 1 := by omega
      rw [if_pos h1, if_pos h2]
    · by_cases h3 : i2 = 0 ∧ j2 = k + 1
      · have h2 : i2 = 0 ∧ j2 ≤ k + 1 := by omega
        rw [if_neg h1, if_pos h3, if_pos h2, h3.2]
      · have h2 : ¬ (i2 = 0 ∧ j2 ≤ k + 1) := by omega
        rw [if_neg h1, if_neg h3, if_neg h2]

theorem distanceMatrix_init (a b : CodeUnits) :
    initFirstRow (initFirstColumn (fun _ _ => none) a.length) b.length =
      distanceMatrixBefore a b 1 1 := by
  funext i2 j2
  rw [initFirstRow_apply, initFirstColumn_apply]
  unfold distanceMatrixBefore
  by_cases h1 : i2 = 0 ∧ j2 ≤ b.length
  · have h2 : i2 ≤ a.length ∧ j2 ≤ b.length ∧ (i2 = 0 ∨ j2 = 0 ∨ i2 < 1 ∨ (i2 = 1 ∧ j2 < 1)) := by
      omega
    rw [if_pos h1, if_pos h2, h1.1, optimalStringAlignment_zero_left]
  · rw [if_neg h1]
    by_cases h3 : j2 = 0 ∧ i2 ≤ a.length
    · have h2 : i2 ≤ a.length ∧ j2 ≤ b.length ∧
          (i2 = 0 ∨ j2 = 0 ∨ i2 < 1 ∨ (i2 = 1 ∧ j2 < 1)) := by omega
      rw [if_pos h3, if_pos h2, h3.1, optimalStringAlignment_zero_right]
    · have h2 : ¬ (i2 ≤ a.length ∧ j2 ≤ b.length ∧
          (i2 = 0 ∨ j2 = 0 ∨ i2 < 1 ∨ (i2 = 1 ∧ j2 < 1))) := by omega
      rw [if_neg h3, if_neg h2]


theorem DistanceMatrix.set_set (d : DistanceMatrix) (i j : Nat) (x y : JsNumber) :
    (d.set i j x).set i j y = d.set i j y := by
  funext i2 j2
  simp only [DistanceMatrix.set]
  by_cases h : i2 = i ∧ j2 = j
  · rw [if_pos h, if_pos h]
  · rw [if_neg h, if_neg h, if_neg h]

theorem distanceMatrixBefore_set (a b : CodeUnits) (i j : Nat) (hi : 1 ≤ i) (hin : i ≤ a.length)
    (hj : 1 ≤ j) (hjm : j ≤ b.length) :
    (distanceMatrixBefore a b i j).set i j (some (optimalStringAlignment a b i j)) =
      distanceMatrixBefore a b i (j + 1) := by
  funext i2 j2
  simp only [DistanceMatrix.set, distanceMatrixBefore]
  by_cases h : i2 = i ∧ j2 = j
  · have h2 : i2 ≤ a.length ∧ j2 ≤ b.length ∧
        (i2 = 0 ∨ j2 = 0 ∨ i2 < i ∨ (i2 = i ∧ j2 < j + 1)) := by omega
    rw [if_pos h, if_pos h2, h.1, h.2]
  · rw [if_neg h]
    by_cases h3 : i2 ≤ a.length ∧ j2 ≤ b.length ∧ (i2 = 0 ∨ j2 = 0 ∨ i2 < i ∨ (i2 = i ∧ j2 < j))
    · have h2 : i2 ≤ a.length ∧ j2 ≤ b.length ∧
          (i2 = 0 ∨ j2 = 0 ∨ i2 < i ∨ (i2 = i ∧ j2 < j + 1)) := by omega
      rw [if_pos h3, if_pos h2]
    · have h2 : ¬ (i2 ≤ a.length ∧ j2 ≤ b.length ∧
          (i2 = 0 ∨ j2 = 0 ∨ i2 < i ∨ (i2 = i ∧ j2 < j + 1))) := by omega
      rw [if_neg h3, if_neg h2]

theorem distanceMatrixBefore_next_row (a b : CodeUnits) (i : Nat) :
    distanceMatrixBefore a b i (b.length + 1) = distanceMatrixBefore a b (i + 1) 1 := by
  funext i2 j2
  simp only [distanceMatrixBefore]
  by_cases h3 : i2 ≤ a.length ∧ j2 ≤ b.length ∧
      (i2 = 0 ∨ j2 = 0 ∨ i2 < i ∨ (i2 = i ∧ j2 < b.length + 1))
  · have h2 : i2 ≤ a.length ∧ j2 ≤ b.length ∧
        (i2 = 0 ∨ j2 = 0 ∨ i2 < i + 1 ∨ (i2 = i + 1 ∧ j2 < 1)) := by omega
    rw [if_pos h3, if_pos h2]
  · have h2 : ¬ (i2 ≤ a.length ∧ j2 ≤ b.length ∧
        (i2 = 0 ∨ j2 = 0 ∨ i2 < i + 1 ∨ (i2 = i + 1 ∧ j2 < 1))) := by omega
    rw [if_neg h3, if_neg h2]

theorem DistanceMatrix.set_same (d : DistanceMatrix) (i j : Nat) (x : JsNumber) :
    (d.set i j x) i j = x := by
  simp [DistanceMatrix.set]

theorem DistanceMatrix.set_of_ne (d : DistanceMatrix) (i j i2 j2 : Nat) (x : JsNumber)
    (h : i2 ≠ i) : (d.set i j x) i2 j2 = d i2 j2 := by
  simp [DistanceMatrix.set, h]

theorem jsNumber_lt_select (p q : Nat) :
    (if JsNumber.lt (some p) (some q) = true then (some p : Option Nat) else (some q : Option Nat)) =
      (some (min p q) : Option Nat) := by
  have hlt : JsNumber.lt (some p) (some q) = decide (p < q) := rfl
  rw [hlt]
  by_cases h : p < q
  · rw [if_pos (by simpa using h), Nat.min_eq_left (Nat.le_of_lt h)]
  · rw [if_neg (by simpa using h), Nat.min_eq_right (Nat.le_of_not_lt h)]

theorem jsNumber_lt_none (x : JsNumber) : JsNumber.lt x none = false := by
  cases x <;> rfl

theorem jsNumber_min_some (p q : Nat) :
    JsNumber.min (some p) (some q) = (some (min p q) : Option Nat) := rfl

theorem distanceStep_before (a b : CodeUnits) (i j : Nat) (hi : 1 ≤ i) (hin : i ≤ a.length)
    (hj : 1 ≤ j) (hjm : j ≤ b.length) :
    distanceStep a b a.length i j (distanceMatrixBefore a b i j) =
      Except.ok (distanceMatrixBefore a b i (j + 1)) := by
  rw [← distanceMatrixBefore_set a b i j hi hin hj hjm]
  obtain ⟨i0, rfl⟩ : ∃ i0, i = i0 + 1 := ⟨i - 1, by omega⟩
  obtain ⟨j0, rfl⟩ : ∃ j0, j = j0 + 1 := ⟨j - 1, by omega⟩
  have hcur : distanceMatrixBefore a b (i0 + 1) (j0 + 1) (i0 + 1) (j0 + 1) = none := by
    unfold distanceMatrixBefore
    rw [if_neg]
    omega
  have hup : distanceMatrixBefore a b (i0 + 1) (j0 + 1) i0 (j0 + 1) =
      some (optimalStringAlignment a b i0 (j0 + 1)) := by
    unfold distanceMatrixBefore
    rw [if_pos]
    omega
  have hleft : distanceMatrixBefore a b (i0 + 1) (j0 + 1) (i0 + 1) j0 =
      some (optimalStringAlignment a b (i0 + 1) j0) := by
    unfold distanceMatrixBefore
    rw [if_pos]
    omega
  have hdiag : distanceMatrixBefore a b (i0 + 1) (j0 + 1) i0 j0 =
      some (optimalStringAlignment a b i0 j0) := by
    unfold distanceMatrixBefore
    rw [if_pos]
    omega
  have hdiag2 : distanceMatrixBefore a b (i0 + 1) (j0 + 1) (i0 - 1) (j0 - 1) =
      some (optimalStringAlignment a b (i0 - 1) (j0 - 1)) := by
    unfold distanceMatrixBefore
    rw [if_pos]
    omega
  have hi2 : i0 + 1 - 2 = i0 - 1 := by omega
  have hj2 : j0 + 1 - 2 = j0 - 1 := by omega
  have hne : i0 - 1 ≠ i0 + 1 := by omega
  have hcond : (decide (i0 + 1 > 1) && decide (j0 + 1 > 1) && a.get? i0 == b.get? (j0 - 1) &&
      a.get? (i0 - 1) == b.get? j0) =
      decide (0 < i0 ∧ 0 < j0 ∧ a.get? i0 = b.get? (j0 - 1) ∧ a.get? (i0 - 1) = b.get? j0) := by
    rw [Bool.eq_iff_iff]
    simp only [Bool.and_eq_true, decide_eq_true_eq, beq_iff_eq, gt_iff_lt, Nat.lt_add_left_iff_pos,
      and_assoc]
  have hcost : (if (a.get? i0 == b.get? j0) = true then 0 else 1) =
      (if a.get? i0 = b.get? j0 then 0 else 1 : Nat) := by
    simp only [beq_iff_eq]
  unfold distanceStep
  simp only [hcur, jsNumber_lt_none, Bool.and_false, Bool.false_eq_true, if_false,
    Nat.add_sub_cancel, hup, hleft, hdiag, JsNumber.add, Option.map_some', hi2, hj2,
    jsNumber_lt_select, DistanceMatrix.set_set, DistanceMatrix.set_same,
    DistanceMatrix.set_of_ne _ _ _ _ _ _ hne, hdiag2, jsNumber_min_some, hcond, hcost,
    decide_eq_true_eq]
  rw [optimalStringAlignment_succ]
  by_cases hc : 0 < i0 ∧ 0 < j0 ∧ a.get? i0 = b.get? (j0 - 1) ∧ a.get? (i0 - 1) = b.get? j0
  · rw [if_pos hc, if_pos hc]
    refine congrArg (fun v => Except.ok
      ((distanceMatrixBefore a b (i0 + 1) (j0 + 1)).set (i0 + 1) (j0 + 1) (some v))) ?_
    by_cases he : a.get? i0 = b.get? j0
    · have hle := optimalStringAlignment_le_diagonal a b (i0 - 1) (j0 - 1)
      have hi3 : i0 - 1 + 1 = i0 := by omega
      have hj3 : j0 - 1 + 1 = j0 := by omega
      rw [hi3, hj3] at hle
      have he2 : a.get? (i0 - 1) = b.get? (j0 - 1) := by
        rw [hc.2.2.2, ← he, hc.2.2.1]
      rw [if_pos he2] at hle
      rw [if_pos he]
      simp only [Nat.min_def]
      split_ifs <;> omega
    · rw [if_neg he]
      simp only [Nat.min_def]
      split_ifs <;> omega
  · rw [if_neg hc, if_neg hc]
    refine congrArg (fun v => Except.ok
      ((distanceMatrixBefore a b (i0 + 1) (j0 + 1)).set (i0 + 1) (j0 + 1) (some v))) ?_
    simp only [Nat.min_def]
    split_ifs <;> omega


theorem distanceInnerLoop_before (a b : CodeUnits) (i : Nat) (hi : 1 ≤ i) (hin : i ≤ a.length)
    (k j : Nat) (hj : 1 ≤ j) (hk : j + k = b.length + 1) :
    distanceInnerLoop a b a.length i k j (distanceMatrixBefore a b i j) =
      Except.ok (distanceMatrixBefore a b i (b.length + 1)) := by
  induction k generalizing j with
  | zero =>
    have hjm : j = b.length + 1 := by omega
    subst hjm
    rfl
  | succ k ih =>
    unfold distanceInnerLoop
    rw [distanceStep_before a b i j hi hin hj (by omega)]
    exact ih (j + 1) (by omega) (by omega)

theorem distanceOuterLoop_before (a b : CodeUnits) (k i : Nat) (hi : 1 ≤ i)
    (hk : i + k = a.length + 1) :
    distanceOuterLoop a b a.length b.length k i (distanceMatrixBefore a b i 1) =
      Except.ok (distanceMatrixBefore a b (a.length + 1) 1) := by
  induction k generalizing i with
  | zero =>
    have hin : i = a.length + 1 := by omega
    subst hin
    rfl
  | succ k ih =>
    unfold distanceOuterLoop
    rw [distanceInnerLoop_before a b i hi (by omega) b.length 1 (Nat.le_refl 1) (by omega),
      distanceMatrixBefore_next_row]
    exact ih (i + 1) (by omega) (by omega)

theorem levenshteinDistance_eq_osaDistance (stringA stringB : Str) :
    levenshteinDistance stringA stringB =
      some (osaDistance (utf16 stringA) (utf16 stringB)) := by
  unfold levenshteinDistance osaDistance
  generalize utf16 stringA = a
  generalize utf16 stringB = b
  by_cases hn : a.length = 0
  · simp [hn, optimalStringAlignment_zero_left]
  · by_cases hm : b.length = 0
    · simp [hn, hm, optimalStringAlignment_zero_right]
    · have hn2 : (a.length == 0) = false := by simpa using hn
      have hm2 : (b.length == 0) = false := by simpa using hm
      simp only [hn2, hm2, Bool.false_eq_true, if_false]
      rw [distanceMatrix_init,
        distanceOuterLoop_before a b a.length 1 (Nat.le_refl 1) (by omega)]
      simp only [distanceMatrixBefore]
      rw [if_pos]
      omega

/-! ## Joining strings -/

mutual
theorem joinPart_eq : ∀ part : JoinArgument, joinPart part = (stringLeaves part).flatten
  | JoinArgument.string s => by simp [joinPart, stringLeaves]
  | JoinArgument.array parts => by
    rw [joinPart, joinLoop_eq parts [], stringLeaves, List.nil_append]
theorem joinLoop_eq : ∀ (arguments : List JoinArgument) (joined : Str),
    joinLoop arguments joined = joined ++ (stringLeavesOfList arguments).flatten
  | [], joined => by simp [joinLoop, stringLeavesOfList]
  | part :: rest, joined => by
    rw [joinLoop, joinLoop_eq rest, joinPart_eq part, stringLeavesOfList, List.flatten_append,
      List.append_assoc]
end

/-- C18: `join` returns the concatenation of all string leaves of its arguments,
depth first and from left to right; without argument, and when the arguments have
no string leaf (only empty arrays, nested or not), it returns the empty string;
`join('a', 'b', 'c')` is `abc` and `join('a', ['b', 'c'], 'd')` is `abcd`. -/
theorem join_eq_flatten_stringLeaves (arguments : List JoinArgument) :
    join arguments = (stringLeavesOfList arguments).flatten ∧
    join [] = [] ∧
    (stringLeavesOfList arguments = [] → join arguments = []) ∧
    join [JoinArgument.array [], JoinArgument.array [JoinArgument.array []]] = [] ∧
    join [JoinArgument.string "a".toList, JoinArgument.string "b".toList,
      JoinArgument.string "c".toList] = "abc".toList ∧
    join [JoinArgument.string "a".toList,
      JoinArgument.array [JoinArgument.string "b".toList, JoinArgument.string "c".toList],
      JoinArgument.string "d".toList] = "abcd".toList := by
  have h : join arguments = (stringLeavesOfList arguments).flatten := by
    unfold join
    rw [joinLoop_eq, List.nil_append]
  refine ⟨h, rfl, ?_, by decide, by decide, by decide⟩
  intro h0
  rw [h, h0]
  rfl

/-! ## Search suggestions -/

theorem sort_perm {α : Type} (array : List α) (compareFunction : α → α → Int) :
    (sort array compareFunction).Perm array :=
  List.perm_insertionSort _ array

theorem sort_pairwise {α κ : Type} [LinearOrder κ] (key : α → κ)
    (compareFunction : α → α → Int)
    (h : ∀ a b, compareFunction a b ≤ 0 ↔ key a ≤ key b) (array : List α) :
    (sort array compareFunction).Pairwise fun a b => key a ≤ key b := by
  haveI : IsTotal α (fun a b => compareFunction a b ≤ 0) :=
    ⟨fun a b => by
      show compareFunction a b ≤ 0 ∨ compareFunction b a ≤ 0
      rw [h, h]
      exact le_total _ _⟩
  haveI : IsTrans α (fun a b => compareFunction a b ≤ 0) :=
    ⟨fun a b c hab hbc => by
      have h1 := (h a b).mp hab
      have h2 := (h b c).mp hbc
      exact (h a c).mpr (le_trans h1 h2)⟩
  have hs := List.sorted_insertionSort (fun a b => compareFunction a b ≤ 0) array
  exact List.Pairwise.imp (fun {a b} hab => (h a b).mp hab) hs

theorem indexOfFrom_spec (value s : CodeUnits) (k : Nat) :
    (indexOfFrom value s k = -1 ∧ ¬ value <:+: s) ∨
    ∃ i : Nat, indexOfFrom value s k = ((k + i : Nat) : Int) ∧ value <+: s.drop i ∧
      ∀ i2, i2 < i → ¬ value <+: s.drop i2 := by
  induction s generalizing k with
  | nil =>
    unfold indexOfFrom
    by_cases hp : value.isPrefixOf [] = true
    · right
      refine ⟨0, by simp [hp], ?_, fun i2 hi2 => absurd hi2 (Nat.not_lt_zero _)⟩
      exact List.isPrefixOf_iff_prefix.mp hp
    · left
      refine ⟨by simp [hp], ?_⟩
      intro hinf
      apply hp
      have hnil : value = [] := List.eq_nil_of_infix_nil hinf
      subst hnil
      rfl
  | cons c t ih =>
    unfold indexOfFrom
    by_cases hp : value.isPrefixOf (c :: t) = true
    · right
      refine ⟨0, by simp [hp], ?_, fun i2 hi2 => absurd hi2 (Nat.not_lt_zero _)⟩
      exact List.isPrefixOf_iff_prefix.mp hp
    · have hnp : ¬ value <+: c :: t := fun hpre => hp (List.isPrefixOf_iff_prefix.mpr hpre)
      rw [if_neg hp]
      rcases ih (k + 1) with ⟨h1, h2⟩ | ⟨i, h1, h2, h3⟩
      · left
        refine ⟨h1, ?_⟩
        intro hinf
        rcases List.infix_cons_iff.mp hinf with h4 | h4
        · exact hnp h4
        · exact h2 h4
      · right
        refine ⟨i + 1, ?_, ?_, ?_⟩
        · rw [h1]
          congr 1
          omega
        · simpa using h2
        · intro i2 hi2
          cases i2 with
          | zero => simpa using hnp
          | succ i3 =>
            have := h3 i3 (by omega)
            simpa using this

theorem indexOf_gt_iff_occurs (tag value : Str) :
    indexOf tag value > -1 ↔ utf16 value <:+: utf16 tag := by
  unfold indexOf
  rcases indexOfFrom_spec (utf16 value) (utf16 tag) 0 with ⟨h1, h2⟩ | ⟨i, h1, h2, _⟩
  · rw [h1]
    simp [h2]
  · rw [h1]
    constructor
    · intro _
      exact h2.isInfix.trans (List.drop_suffix i (utf16 tag)).isInfix
    · intro _
      omega

theorem indexOf_first_occurrence (tag value : Str) (h : utf16 value <:+: utf16 tag) :
    ∃ i : Nat, indexOf tag value = (i : Int) ∧ utf16 value <+: (utf16 tag).drop i ∧
      ∀ k, k < i → ¬ utf16 value <+: (utf16 tag).drop k := by
  unfold indexOf
  rcases indexOfFrom_spec (utf16 value) (utf16 tag) 0 with ⟨_, h2⟩ | ⟨i, h1, h2, h3⟩
  · exact absurd h h2
  · exact ⟨i, by simpa using h1, h2, h3⟩

/-- C19: `getPartialTagMatches(tags, value)` is a rearrangement of exactly the tags
that contain `value` as a substring, with their multiplicities, ordered
non-decreasingly by `indexOf(value)`, which for each of them is the index of the
first occurrence of `value` in the tag.  Substrings and indices are those of the
language: a string is its sequence of UTF-16 code units (`utf16`), `value` occurs
in the tag at the index `i` when the code units of `value` are the first ones of
the code units of the tag from position `i` on. -/
theorem getPartialTagMatches_sorted_matches (tags : List Str) (value : Str) :
    (getPartialTagMatches tags value).Perm
      (tags.filter fun tag => decide (utf16 value <:+: utf16 tag)) ∧
    (getPartialTagMatches tags value).Pairwise
      (fun a b => indexOf a value ≤ indexOf b value) ∧
    ∀ tag ∈ getPartialTagMatches tags value,
      ∃ i : Nat, indexOf tag value = (i : Int) ∧ utf16 value <+: (utf16 tag).drop i ∧
        ∀ k, k < i → ¬ utf16 value <+: (utf16 tag).drop k := by
  have hfilter : (tags.filter fun tag => decide (indexOf tag value > -1)) =
      tags.filter fun tag => decide (utf16 value <:+: utf16 tag) := by
    apply List.filter_congr
    intro tag _
    exact decide_eq_decide.mpr (indexOf_gt_iff_occurs tag value)
  have hperm : (getPartialTagMatches tags value).Perm
      (tags.filter fun tag => decide (utf16 value <:+: utf16 tag)) := by
    unfold getPartialTagMatches
    rw [hfilter]
    exact sort_perm _ _
  refine ⟨hperm, ?_, ?_⟩
  · unfold getPartialTagMatches
    apply sort_pairwise (fun tag => indexOf tag value)
    intro a b
    simp only
    split_ifs with h1 h2 <;> constructor <;> intro h <;> omega
  · intro tag hmem
    have hin := (hperm.mem_iff).mp hmem
    have hinf : utf16 value <:+: utf16 tag := by simpa using (List.mem_filter.mp hin).2
    exact indexOf_first_occurrence tag value hinf

theorem set_length_append_singleton {α : Type} (store : List α) (c x : α) :
    (store ++ [c]).set store.length x = store ++ [x] := by
  induction store with
  | nil => rfl
  | cons a t ih => simp [List.set, ih]

theorem getSuggestedTags_eq (store : ArrayStore) (tags : Nat) (value : Str) :
    getSuggestedTags store tags value =
      (store ++ [sort (store.getD tags []) fun a b =>
          if JsNumber.lt (levenshteinDistance value b) (levenshteinDistance value a) then 1
          else if JsNumber.lt (levenshteinDistance value a) (levenshteinDistance value b) then -1
          else 0],
        store.length) := by
  unfold getSuggestedTags ArrayStore.sort ArrayStore.slice
  simp only [set_length_append_singleton]
  congr 3
  simp [List.getD_eq_getElem?_getD]

/-! ## The claims on the edit distance and on the suggested tags -/

/-- C17: at the strings `ab` and `ba` the function `levenshteinDistance` returns
1, one transposition, while the Levenshtein distance between `ab` and `ba`, which
the name and the documentation of the function announce, is 2. -/
theorem levenshteinDistance_counts_transposition :
    levenshteinDistance "ab".toList "ba".toList = some 1 ∧
    levenshtein Levenshtein.defaultCost (utf16 "ab".toList) (utf16 "ba".toList) = 2 := by
  decide

/-- What `levenshteinDistance(a, b)` computes on every pair of strings: the optimal
string alignment distance between the code units of `a` and of `b`, that is the
value at their lengths of the function of two prefix lengths that is `j` at `0`,
`j`, is `i` at `i`, `0`, and at `i + 1`, `j + 1` is the least of the value at `i`,
`j + 1` plus one (a deletion), the value at `i + 1`, `j` plus one (an insertion),
the value at `i`, `j` plus the cost of a substitution, and, when the last two code
units of both prefixes are each other's mirror image, the value at `i - 1`,
`j - 1` plus one (a transposition).  In particular the function returns a number
on every input, and the early `return n` of its inner loop is never taken. -/
theorem levenshteinDistance_optimal_string_alignment (stringA stringB : Str) :
    levenshteinDistance stringA stringB =
      some (optimalStringAlignment (utf16 stringA) (utf16 stringB)
        (utf16 stringA).length (utf16 stringB).length) ∧
    ∀ a b : CodeUnits,
      (∀ j, optimalStringAlignment a b 0 j = j) ∧
      (∀ i, optimalStringAlignment a b i 0 = i) ∧
      (∀ i j, optimalStringAlignment a b (i + 1) (j + 1) =
        if 0 < i ∧ 0 < j ∧ a.get? i = b.get? (j - 1) ∧ a.get? (i - 1) = b.get? j then
          min (min (optimalStringAlignment a b i (j + 1) + 1)
            (min (optimalStringAlignment a b (i + 1) j + 1)
              (optimalStringAlignment a b i j + if a.get? i = b.get? j then 0 else 1)))
            (optimalStringAlignment a b (i - 1) (j - 1) + 1)
        else
          min (optimalStringAlignment a b i (j + 1) + 1)
            (min (optimalStringAlignment a b (i + 1) j + 1)
              (optimalStringAlignment a b i j + if a.get? i = b.get? j then 0 else 1))) :=
  ⟨levenshteinDistance_eq_osaDistance stringA stringB, fun a b =>
    ⟨optimalStringAlignment_zero_left a b, optimalStringAlignment_zero_right a b,
      optimalStringAlignment_succ a b⟩⟩

/-- Lengths and positions count UTF-16 code units: the character U+1F600 is two of
them, so its distance to the empty string is 2, and `x` is at index 2 after it. -/
theorem code_units_of_astral_character :
    levenshteinDistance [Char.ofNat 128512] [] = some 2 ∧
    indexOf [Char.ofNat 128512, 'x'] ['x'] = 2 ∧
    getPartialTagMatches ["abx".toList, [Char.ofNat 128512, 'x']] ['x'] =
      ["abx".toList, [Char.ofNat 128512, 'x']] := by
  decide

theorem suggestedTags_compare_iff (value a b : Str) :
    (if JsNumber.lt (levenshteinDistance value b) (levenshteinDistance value a) = true then (1 : Int)
      else if JsNumber.lt (levenshteinDistance value a) (levenshteinDistance value b) = true
        then -1
      else 0) ≤ 0 ↔
      osaDistance (utf16 value) (utf16 a) ≤ osaDistance (utf16 value) (utf16 b) := by
  rw [levenshteinDistance_eq_osaDistance, levenshteinDistance_eq_osaDistance]
  have h1 : JsNumber.lt (some (osaDistance (utf16 value) (utf16 b)))
      (some (osaDistance (utf16 value) (utf16 a))) =
      decide (osaDistance (utf16 value) (utf16 b) < osaDistance (utf16 value) (utf16 a)) := rfl
  have h2 : JsNumber.lt (some (osaDistance (utf16 value) (utf16 a)))
      (some (osaDistance (utf16 value) (utf16 b))) =
      decide (osaDistance (utf16 value) (utf16 a) < osaDistance (utf16 value) (utf16 b)) := rfl
  rw [h1, h2]
  simp only [decide_eq_true_eq]
  split_ifs <;> constructor <;> intro h <;> omega

/-- C20: `getSuggestedTags(tags, value)` leaves every array of the store as it
was, the array `tags` included, and returns a new array whose elements are a
rearrangement of those of `tags`, ordered non-decreasingly by
`levenshteinDistance(value, tag)`, which is a number for every tag (the distance
that the function computes on the UTF-16 code units of the two strings). -/
theorem getSuggestedTags_sorted_copy (store : ArrayStore) (tags : Nat) (value : Str)
    (h : tags < store.length) :
    (∀ k, k < store.length → (getSuggestedTags store tags value).1.get? k = store.get? k) ∧
    (getSuggestedTags store tags value).2 ≠ tags ∧
    ∃ result, (getSuggestedTags store tags value).1.get?
        (getSuggestedTags store tags value).2 = some result ∧
      result.Perm (store.get ⟨tags, h⟩) ∧
      result.Pairwise fun a b => ∃ x y, levenshteinDistance value a = some x ∧
        levenshteinDistance value b = some y ∧ x ≤ y := by
  rw [getSuggestedTags_eq]
  have hget : store.getD tags [] = store.get ⟨tags, h⟩ := by
    simp [List.getD_eq_getElem?_getD, List.getElem?_eq_getElem h]
  refine ⟨?_, ?_, ?_⟩
  · intro k hk
    simp only [List.get?_eq_getElem?]
    exact List.getElem?_append_left hk
  · exact fun heq => absurd h (by simp only at heq; omega)
  · refine ⟨sort (store.getD tags []) (fun a b =>
        if JsNumber.lt (levenshteinDistance value b) (levenshteinDistance value a) then 1
        else if JsNumber.lt (levenshteinDistance value a) (levenshteinDistance value b) then -1
        else 0), ?_, ?_, ?_⟩
    · simp only [List.get?_eq_getElem?]
      rw [List.getElem?_append_right (Nat.le_refl _)]
      simp
    · rw [hget]
      exact sort_perm _ _
    · have hs := sort_pairwise (fun tag => osaDistance (utf16 value) (utf16 tag)) _
        (fun a b => suggestedTags_compare_iff value a b) (store.getD tags [])
      exact List.Pairwise.imp (fun {a b} hab =>
        ⟨_, _, levenshteinDistance_eq_osaDistance value a,
          levenshteinDistance_eq_osaDistance value b, hab⟩) hs

/-- Witness of C20: the tags `kitten`, `sit`, `mitten` sorted by their distance to
`mitten` are `mitten`, `kitten`, `sit`, in a new array; the array of the tags is as
before.  The tags `abc` and twice U+1F600, at the distances 3 and 4 from the empty
string, keep their order. -/
theorem getSuggestedTags_sorted_copy_witness :
    getSuggestedTags [["kitten".toList, "sit".toList, "mitten".toList]] 0 "mitten".toList =
      ([["kitten".toList, "sit".toList, "mitten".toList],
        ["mitten".toList, "kitten".toList, "sit".toList]], 1) ∧
    getSuggestedTags [["abc".toList, [Char.ofNat 128512, Char.ofNat 128512]]] 0 [] =
      ([["abc".toList, [Char.ofNat 128512, Char.ofNat 128512]],
        ["abc".toList, [Char.ofNat 128512, Char.ofNat 128512]]], 1) ∧
    (getSuggestedTags [["kitten".toList, "sit".toList, "mitten".toList]] 0
      "mitten".toList).2 ≠ 0 :=
  ⟨by decide, by decide,
    (getSuggestedTags_sorted_copy [["kitten".toList, "sit".toList, "mitten".toList]] 0
      "mitten".toList (by decide)).2.1⟩

/-! ## The page window of `PaginationView.render` -/

theorem pagesFrom_length (start : Int) (count : Nat) : (pagesFrom start count).length = count := by
  induction count generalizing start with
  | zero => rfl
  | succ n ih => simp [pagesFrom, ih]

theorem mem_pagesFrom (start : Int) (count : Nat) (q : Int) :
    q ∈ pagesFrom start count ↔ start ≤ q ∧ q < start + count := by
  induction count generalizing start with
  | zero =>
    simp only [pagesFrom, List.not_mem_nil, false_iff]
    omega
  | succ n ih =>
    simp only [pagesFrom, List.mem_cons, ih]
    omega

theorem pagesFrom_count_current (start : Int) (count : Nat) (currentPage : Int)
    (h1 : start ≤ currentPage) (h2 : currentPage < start + count) :
    ((pagesFrom start count).filter fun q => decide (q = currentPage)).length = 1 := by
  induction count generalizing start with
  | zero => omega
  | succ n ih =>
    by_cases hs : start = currentPage
    · subst hs
      have hnone : (pagesFrom (start + 1) n).filter (fun q => decide (q = start)) = [] := by
        rw [List.filter_eq_nil_iff]
        intro q hq
        have := (mem_pagesFrom (start + 1) n q).mp hq
        simp only [decide_eq_true_eq]
        omega
      simp only [pagesFrom, List.filter_cons, decide_True, if_true, hnone, List.length_singleton]
    · have := ih (start + 1) (by omega) (by push_cast at h2 ⊢; omega)
      simp [pagesFrom, List.filter_cons, hs]
      simpa using this

theorem renderLoop_eq (currentPage windowEnd : Int) (fuel : Nat) (pageNumber : Int)
    (paginationLinks : List PaginationLink)
    (hfuel : (windowEnd + 1 - pageNumber).toNat ≤ fuel) :
    PaginationView.renderLoop currentPage windowEnd fuel pageNumber paginationLinks =
      paginationLinks ++ (pagesFrom pageNumber (windowEnd + 1 - pageNumber).toNat).map fun q =>
        { pageNumber := q, isCurrent := decide (q = currentPage), text := none } := by
  induction fuel generalizing pageNumber paginationLinks with
  | zero =>
    have h0 : (windowEnd + 1 - pageNumber).toNat = 0 := by omega
    simp [PaginationView.renderLoop, h0, pagesFrom]
  | succ k ih =>
    unfold PaginationView.renderLoop
    by_cases hp : pageNumber ≤ windowEnd
    · have hn : (windowEnd + 1 - pageNumber).toNat =
          (windowEnd + 1 - (pageNumber + 1)).toNat + 1 := by omega
      rw [if_pos hp, ih (pageNumber + 1) _ (by omega), hn]
      simp [pagesFrom, PaginationView.renderPaginationLink]
    · have h0 : (windowEnd + 1 - pageNumber).toNat = 0 := by omega
      rw [if_neg hp, h0]
      simp [pagesFrom]

theorem numberedLinks_render (paginationInfo : PaginationInfo) :
    numberedLinks (PaginationView.render paginationInfo) =
      (pagesFrom (PaginationView.window paginationInfo).windowStart
        ((PaginationView.window paginationInfo).windowEnd + 1 -
          (PaginationView.window paginationInfo).windowStart).toNat).map fun q =>
        { pageNumber := q, isCurrent := decide (q = paginationInfo.currentPage), text := none } := by
  unfold PaginationView.render numberedLinks
  simp only []
  rw [renderLoop_eq _ _ _ _ _ (Nat.le_refl _)]
  have hmap : ∀ l : List Int, (l.map fun q =>
      ({ pageNumber := q, isCurrent := decide (q = paginationInfo.currentPage), text := none } :
        PaginationLink)).filter (fun link => link.text.isNone) =
      l.map fun q =>
        { pageNumber := q, isCurrent := decide (q = paginationInfo.currentPage), text := none } := by
    intro l
    rw [List.filter_eq_self]
    intro link hlink
    obtain ⟨q, _, hq⟩ := List.mem_map.mp hlink
    rw [← hq]
    rfl
  by_cases h1 : paginationInfo.currentPage > 1 <;>
    by_cases h2 : paginationInfo.currentPage < paginationInfo.totalPages <;>
    simp [h1, h2, List.filter_cons, List.filter_append, PaginationView.renderPaginationLink, hmap]

theorem window_bounds (paginationInfo : PaginationInfo) :
    LOWEST_POSSIBLE_PAGE_NUM ≤ (PaginationView.window paginationInfo).windowStart ∧
    (PaginationView.window paginationInfo).windowEnd ≤ paginationInfo.totalPages := by
  simp only [PaginationView.window, PAGINATION_MAX_NUM_LINKS, LOWEST_POSSIBLE_PAGE_NUM]
  constructor
  · split_ifs <;> omega
  · omega


/-- C21: for all integers `currentPage` and `totalPages`, the window computed by
`render` starts at `LOWEST_POSSIBLE_PAGE_NUM` (1) or above and ends at `totalPages`
or below, and every numbered link that `render` makes is for a page from 1 to
`totalPages`. -/
theorem render_window_within_pages (paginationInfo : PaginationInfo) :
    LOWEST_POSSIBLE_PAGE_NUM ≤ (PaginationView.window paginationInfo).windowStart ∧
    (PaginationView.window paginationInfo).windowEnd ≤ paginationInfo.totalPages ∧
    ∀ link ∈ numberedLinks (PaginationView.render paginationInfo),
      1 ≤ link.pageNumber ∧ link.pageNumber ≤ paginationInfo.totalPages := by
  have hb := window_bounds paginationInfo
  refine ⟨hb.1, hb.2, ?_⟩
  intro link hlink
  rw [numberedLinks_render] at hlink
  obtain ⟨q, hq, hlq⟩ := List.mem_map.mp hlink
  have hmem := (mem_pagesFrom _ _ q).mp hq
  have h1 : LOWEST_POSSIBLE_PAGE_NUM = 1 := rfl
  rw [← hlq]
  simp only
  omega

theorem window_contains_current (paginationInfo : PaginationInfo)
    (h1 : 1 ≤ paginationInfo.currentPage)
    (h2 : paginationInfo.currentPage ≤ paginationInfo.totalPages) :
    (PaginationView.window paginationInfo).windowStart ≤ paginationInfo.currentPage ∧
    paginationInfo.currentPage ≤ (PaginationView.window paginationInfo).windowEnd := by
  simp only [PaginationView.window, PAGINATION_MAX_NUM_LINKS, LOWEST_POSSIBLE_PAGE_NUM]
  constructor
  · split_ifs <;> omega
  · omega

theorem window_length (paginationInfo : PaginationInfo)
    (h1 : 1 ≤ paginationInfo.currentPage)
    (h2 : paginationInfo.currentPage ≤ paginationInfo.totalPages) :
    (PaginationView.window paginationInfo).windowEnd + 1 -
        (PaginationView.window paginationInfo).windowStart =
      min paginationInfo.totalPages (PAGINATION_MAX_NUM_LINKS + 1) := by
  simp only [PaginationView.window, PAGINATION_MAX_NUM_LINKS, LOWEST_POSSIBLE_PAGE_NUM]
  split_ifs <;> omega

/-- In exact integer arithmetic, for `1 ≤ currentPage ≤ totalPages` the window of
`render` contains the current page, and exactly one numbered link is marked as the
current page; it is the link of the current page. -/
theorem exactRender_marks_current_page_once (paginationInfo : PaginationInfo)
    (h1 : 1 ≤ paginationInfo.currentPage)
    (h2 : paginationInfo.currentPage ≤ paginationInfo.totalPages) :
    (PaginationView.window paginationInfo).windowStart ≤ paginationInfo.currentPage ∧
    paginationInfo.currentPage ≤ (PaginationView.window paginationInfo).windowEnd ∧
    ((numberedLinks (PaginationView.render paginationInfo)).filter
      fun link => link.isCurrent).length = 1 ∧
    ∀ link ∈ numberedLinks (PaginationView.render paginationInfo),
      link.isCurrent = true ↔ link.pageNumber = paginationInfo.currentPage := by
  have hw := window_contains_current paginationInfo h1 h2
  refine ⟨hw.1, hw.2, ?_, ?_⟩
  · rw [numberedLinks_render, List.filter_map, List.length_map]
    have hcount := pagesFrom_count_current (PaginationView.window paginationInfo).windowStart
      ((PaginationView.window paginationInfo).windowEnd + 1 -
        (PaginationView.window paginationInfo).windowStart).toNat paginationInfo.currentPage
      hw.1 (by omega)
    exact hcount
  · intro link hlink
    rw [numberedLinks_render] at hlink
    obtain ⟨q, _, hlq⟩ := List.mem_map.mp hlink
    rw [← hlq]
    simp

/-- In exact integer arithmetic, for `1 ≤ currentPage ≤ totalPages`, `render` makes
exactly `min(totalPages, PAGINATION_MAX_NUM_LINKS + 1)`, that is
`min(totalPages, 7)`, numbered links, for the consecutive pages from `windowStart`
to `windowEnd` inclusive, in this order. -/
theorem exactRender_numbered_link_count (paginationInfo : PaginationInfo)
    (h1 : 1 ≤ paginationInfo.currentPage)
    (h2 : paginationInfo.currentPage ≤ paginationInfo.totalPages) :
    ((numberedLinks (PaginationView.render paginationInfo)).length : Int) =
      min paginationInfo.totalPages (PAGINATION_MAX_NUM_LINKS + 1) ∧
    min paginationInfo.totalPages (PAGINATION_MAX_NUM_LINKS + 1) = min paginationInfo.totalPages 7 ∧
    (numberedLinks (PaginationView.render paginationInfo)).map (fun link => link.pageNumber) =
      pagesFrom (PaginationView.window paginationInfo).windowStart
        (min paginationInfo.totalPages 7).toNat ∧
    (PaginationView.window paginationInfo).windowEnd =
      (PaginationView.window paginationInfo).windowStart + min paginationInfo.totalPages 7 - 1 := by
  have hlen := window_length paginationInfo h1 h2
  have h7 : PAGINATION_MAX_NUM_LINKS + 1 = 7 := rfl
  rw [h7] at hlen ⊢
  refine ⟨?_, rfl, ?_, ?_⟩
  · rw [numberedLinks_render, List.length_map, pagesFrom_length, hlen]
    omega
  · rw [numberedLinks_render, List.map_map, hlen]
    exact List.map_id _
  · omega

/-! ## Pagination in the number arithmetic of the language -/

theorem roundToDouble_exact (x : Int) (h1 : -MAX_EXACT_INTEGER ≤ x) (h2 : x ≤ MAX_EXACT_INTEGER) :
    roundToDouble x = x := by
  unfold MAX_EXACT_INTEGER at h1 h2
  unfold roundToDouble roundNatToDouble
  split_ifs <;> omega

theorem roundToDouble_above (x : Int) (h1 : MAX_EXACT_INTEGER < x)
    (h2 : x ≤ MAX_EXACT_INTEGER + 5) : MAX_EXACT_INTEGER ≤ roundToDouble x := by
  unfold MAX_EXACT_INTEGER at h1 h2 ⊢
  interval_cases x <;> decide

theorem doubles_window_eq (paginationInfo : PaginationInfo)
    (h1 : 1 ≤ paginationInfo.currentPage)
    (h2 : paginationInfo.currentPage ≤ paginationInfo.totalPages)
    (h3 : min (paginationInfo.currentPage + 3) paginationInfo.totalPages <
      MAX_EXACT_INTEGER) :
    Doubles.PaginationView.window paginationInfo = PaginationView.window paginationInfo := by
  have hM : MAX_EXACT_INTEGER = 9007199254740992 := rfl
  rw [hM] at h3
  unfold Doubles.PaginationView.window PaginationView.window
  simp only [PAGINATION_MAX_NUM_LINKS, LOWEST_POSSIBLE_PAGE_NUM]
  have e1 : roundToDouble (paginationInfo.currentPage - 6 / 2) = paginationInfo.currentPage - 6 / 2 :=
    roundToDouble_exact _ (by omega) (by omega)
  rw [e1]
  have hend : min (roundToDouble (max (paginationInfo.currentPage - 6 / 2) 1 + 6))
      paginationInfo.totalPages =
      min (max (paginationInfo.currentPage - 6 / 2) 1 + 6) paginationInfo.totalPages := by
    by_cases hle : max (paginationInfo.currentPage - 6 / 2) 1 + 6 ≤ MAX_EXACT_INTEGER
    · rw [roundToDouble_exact _ (by omega) hle]
    · have := roundToDouble_above (max (paginationInfo.currentPage - 6 / 2) 1 + 6)
        (by omega) (by omega)
      omega
  rw [hend]
  have e2 : roundToDouble (min (max (paginationInfo.currentPage - 6 / 2) 1 + 6)
      paginationInfo.totalPages - max (paginationInfo.currentPage - 6 / 2) 1) =
      min (max (paginationInfo.currentPage - 6 / 2) 1 + 6)
      paginationInfo.totalPages - max (paginationInfo.currentPage - 6 / 2) 1 :=
    roundToDouble_exact _ (by omega) (by omega)
  rw [e2]
  have e3 : roundToDouble (6 - (min (max (paginationInfo.currentPage - 6 / 2) 1 + 6)
      paginationInfo.totalPages - max (paginationInfo.currentPage - 6 / 2) 1)) =
      6 - (min (max (paginationInfo.currentPage - 6 / 2) 1 + 6)
      paginationInfo.totalPages - max (paginationInfo.currentPage - 6 / 2) 1) :=
    roundToDouble_exact _ (by omega) (by omega)
  rw [e3]
  have e4 : roundToDouble (max (paginationInfo.currentPage - 6 / 2) 1 -
      (6 - (min (max (paginationInfo.currentPage - 6 / 2) 1 + 6)
      paginationInfo.totalPages - max (paginationInfo.currentPage - 6 / 2) 1))) =
      max (paginationInfo.currentPage - 6 / 2) 1 -
      (6 - (min (max (paginationInfo.currentPage - 6 / 2) 1 + 6)
      paginationInfo.totalPages - max (paginationInfo.currentPage - 6 / 2) 1)) :=
    roundToDouble_exact _ (by omega) (by omega)
  rw [e4]

theorem doubles_renderLoop_eq (currentPage windowEnd : Int) (fuel : Nat) (pageNumber : Int)
    (paginationLinks : List PaginationLink)
    (hend : windowEnd < MAX_EXACT_INTEGER) (hstart : -MAX_EXACT_INTEGER ≤ pageNumber) :
    Doubles.PaginationView.renderLoop currentPage windowEnd fuel pageNumber paginationLinks =
      if (windowEnd + 1 - pageNumber).toNat < fuel then
        some (PaginationView.renderLoop currentPage windowEnd
          (windowEnd + 1 - pageNumber).toNat pageNumber paginationLinks)
      else none := by
  have hM : MAX_EXACT_INTEGER = 9007199254740992 := rfl
  induction fuel generalizing pageNumber paginationLinks with
  | zero => simp [Doubles.PaginationView.renderLoop]
  | succ k ih =>
    unfold Doubles.PaginationView.renderLoop
    by_cases hp : pageNumber ≤ windowEnd
    · have hn : (windowEnd + 1 - pageNumber).toNat =
          (windowEnd + 1 - (pageNumber + 1)).toNat + 1 := by omega
      rw [if_pos hp, roundToDouble_exact _ (by omega) (by omega), ih _ _ (by omega), hn]
      have hc : ((windowEnd + 1 - (pageNumber + 1)).toNat + 1 < k + 1) ↔
          ((windowEnd + 1 - (pageNumber + 1)).toNat < k) := by omega
      simp only [hc]
      split_ifs
      · rw [PaginationView.renderLoop, if_pos hp]
      · rfl
    · have h0 : (windowEnd + 1 - pageNumber).toNat = 0 := by omega
      rw [if_neg hp, h0, if_pos (by omega)]
      rfl

theorem doubles_render_eq (fuel : Nat) (paginationInfo : PaginationInfo)
    (h1 : 1 ≤ paginationInfo.currentPage)
    (h2 : paginationInfo.currentPage ≤ paginationInfo.totalPages)
    (h3 : min (paginationInfo.currentPage + 3) paginationInfo.totalPages <
      MAX_EXACT_INTEGER) :
    Doubles.PaginationView.render fuel paginationInfo =
      if ((PaginationView.window paginationInfo).windowEnd + 1 -
          (PaginationView.window paginationInfo).windowStart).toNat < fuel then
        some (PaginationView.render paginationInfo)
      else none := by
  have hM : MAX_EXACT_INTEGER = 9007199254740992 := rfl
  have hb := window_bounds paginationInfo
  have hL : LOWEST_POSSIBLE_PAGE_NUM = 1 := rfl
  have hend : (PaginationView.window paginationInfo).windowEnd <
      MAX_EXACT_INTEGER := by
    rw [hM] at h3 ⊢
    simp only [PaginationView.window, PAGINATION_MAX_NUM_LINKS, LOWEST_POSSIBLE_PAGE_NUM]
    omega
  rw [hM] at h3
  unfold Doubles.PaginationView.render
  simp only []
  rw [doubles_window_eq paginationInfo h1 h2 h3,
    doubles_renderLoop_eq _ _ _ _ _ hend (by omega),
    roundToDouble_exact (paginationInfo.currentPage - 1) (by omega) (by omega),
    roundToDouble_exact (paginationInfo.currentPage + 1) (by omega) (by omega)]
  by_cases hf : ((PaginationView.window paginationInfo).windowEnd + 1 -
      (PaginationView.window paginationInfo).windowStart).toNat < fuel
  · rw [if_pos hf, if_pos hf, Option.map_some']
    rfl
  · rw [if_neg hf, if_neg hf]
    rfl

theorem doubles_renderLoop_stuck (currentPage : Int) (fuel : Nat) (pageNumber : Int)
    (paginationLinks : List PaginationLink)
    (h1 : -MAX_EXACT_INTEGER ≤ pageNumber) (h2 : pageNumber ≤ MAX_EXACT_INTEGER) :
    Doubles.PaginationView.renderLoop currentPage MAX_EXACT_INTEGER fuel pageNumber
      paginationLinks = none := by
  induction fuel generalizing pageNumber paginationLinks with
  | zero => rfl
  | succ k ih =>
    unfold Doubles.PaginationView.renderLoop
    rw [if_pos h2]
    by_cases hlt : pageNumber < MAX_EXACT_INTEGER
    · have hM : MAX_EXACT_INTEGER = 9007199254740992 := rfl
      rw [roundToDouble_exact _ (by omega) (by omega)]
      exact ih _ _ (by omega) (by omega)
    · have hp : pageNumber = MAX_EXACT_INTEGER := le_antisymm h2 (not_lt.mp hlt)
      have hr : roundToDouble (pageNumber + 1) = MAX_EXACT_INTEGER := by
        rw [hp]
        decide
      rw [hr]
      exact ih _ _ (by unfold MAX_EXACT_INTEGER; omega) (le_refl _)

theorem significandShift_first (n : Nat) (k e0 : Nat) :
    significandShift n k e0 = e0 ∨
      (e0 < significandShift n k e0 ∧
        9007199254740992 ≤ n / 2 ^ (significandShift n k e0 - 1)) := by
  induction k generalizing e0 with
  | zero => exact Or.inl rfl
  | succ k ih =>
    unfold significandShift
    by_cases hc : n / 2 ^ e0 < 9007199254740992
    · rw [if_pos hc]
      exact Or.inl rfl
    · rw [if_neg hc]
      rcases ih (e0 + 1) with h | ⟨h1, h2⟩
      · right
        rw [h]
        exact ⟨Nat.lt_succ_self _, by simpa using hc⟩
      · exact Or.inr ⟨by omega, h2⟩

theorem pow_significandShift_le (n : Nat) (hn : 0 < n) : 2 ^ significandShift n n 0 ≤ n := by
  rcases significandShift_first n n 0 with h | ⟨h1, h2⟩
  · rw [h]
    simpa using hn
  · have hpos : 0 < 2 ^ (significandShift n n 0 - 1) := pow_pos (by decide) _
    have h3 := (Nat.le_div_iff_mul_le hpos).mp h2
    have h4 : 2 ^ significandShift n n 0 = 2 * 2 ^ (significandShift n n 0 - 1) := by
      rw [← pow_succ']
      congr 1
      omega
    rw [h4]
    nlinarith

theorem roundNatToDouble_pos (n : Nat) (hn : 0 < n) : 0 < roundNatToDouble n := by
  unfold roundNatToDouble
  by_cases h : n ≤ 9007199254740992
  · rw [if_pos h]
    exact hn
  · rw [if_neg h]
    have hle := pow_significandShift_le n hn
    have hpos : 0 < 2 ^ significandShift n n 0 := pow_pos (by decide) _
    have hq : 0 < n / 2 ^ significandShift n n 0 := Nat.div_pos hle hpos
    simp only []
    split_ifs <;> positivity

theorem roundToDouble_pos (x : Int) (hx : 0 < x) : 0 < roundToDouble x := by
  unfold roundToDouble
  rw [if_pos (le_of_lt hx)]
  have := roundNatToDouble_pos x.toNat (by omega)
  exact_mod_cast this

theorem doubles_window_bounds (paginationInfo : PaginationInfo) :
    LOWEST_POSSIBLE_PAGE_NUM ≤ (Doubles.PaginationView.window paginationInfo).windowStart ∧
    (Doubles.PaginationView.window paginationInfo).windowEnd ≤ paginationInfo.totalPages := by
  simp only [Doubles.PaginationView.window, PAGINATION_MAX_NUM_LINKS, LOWEST_POSSIBLE_PAGE_NUM]
  constructor
  · split_ifs <;> omega
  · omega

theorem doubles_renderLoop_within (currentPage windowEnd : Int) (fuel : Nat) (pageNumber : Int)
    (paginationLinks result : List PaginationLink) (hp : 1 ≤ pageNumber)
    (hlinks : ∀ link ∈ paginationLinks, 1 ≤ link.pageNumber ∧ link.pageNumber ≤ windowEnd)
    (hres : Doubles.PaginationView.renderLoop currentPage windowEnd fuel pageNumber
      paginationLinks = some result) :
    ∀ link ∈ result, 1 ≤ link.pageNumber ∧ link.pageNumber ≤ windowEnd := by
  induction fuel generalizing pageNumber paginationLinks with
  | zero => simp [Doubles.PaginationView.renderLoop] at hres
  | succ k ih =>
    unfold Doubles.PaginationView.renderLoop at hres
    by_cases hc : pageNumber ≤ windowEnd
    · rw [if_pos hc] at hres
      refine ih _ _ ?_ ?_ hres
      · have := roundToDouble_pos (pageNumber + 1) (by omega)
        omega
      · intro link hlink
        rcases List.mem_append.mp hlink with h | h
        · exact hlinks link h
        · rw [List.mem_singleton] at h
          rw [h]
          exact ⟨hp, hc⟩
    · rw [if_neg hc] at hres
      cases hres
      exact hlinks

/-- The bounds of the window and of the numbered links hold in the number
arithmetic of the language as well, for all integers `currentPage` and
`totalPages`: the window starts at 1 or above and ends at `totalPages` or below,
and in every list of links that `render` returns each numbered link is for a page
from 1 to `totalPages`. -/
theorem doubles_render_window_within_pages (paginationInfo : PaginationInfo) :
    LOWEST_POSSIBLE_PAGE_NUM ≤ (Doubles.PaginationView.window paginationInfo).windowStart ∧
    (Doubles.PaginationView.window paginationInfo).windowEnd ≤ paginationInfo.totalPages ∧
    ∀ fuel paginationLinks,
      Doubles.PaginationView.render fuel paginationInfo = some paginationLinks →
      ∀ link ∈ numberedLinks paginationLinks,
        1 ≤ link.pageNumber ∧ link.pageNumber ≤ paginationInfo.totalPages := by
  have hb := doubles_window_bounds paginationInfo
  refine ⟨hb.1, hb.2, ?_⟩
  intro fuel paginationLinks hres link hlink
  unfold Doubles.PaginationView.render at hres
  simp only [Option.map_eq_some'] at hres
  obtain ⟨loopLinks, hloop, hrest⟩ := hres
  have hin := doubles_renderLoop_within _ _ _ _ _ _ hb.1 (by simp) hloop
  have hnl : numberedLinks paginationLinks = numberedLinks loopLinks := by
    rw [← hrest]
    unfold numberedLinks
    by_cases h1 : paginationInfo.currentPage > 1 <;>
      by_cases h2 : paginationInfo.currentPage < paginationInfo.totalPages <;>
      simp [h1, h2, List.filter_cons, List.filter_append, PaginationView.renderPaginationLink]
  have hnum : link ∈ loopLinks := by
    rw [hnl] at hlink
    exact (List.mem_filter.mp hlink).1
  have := hin link hnum
  omega

/-- Counterexample to C22: on page `2 ^ 53` of `2 ^ 53`, which satisfies
`1 ≤ currentPage ≤ totalPages`, the window is `2 ^ 53 - 6` to `2 ^ 53`, and the
loop of `render` does not end, however many times its condition is evaluated:
`pageNumber++` leaves `pageNumber` at `2 ^ 53`, the double nearest to
`2 ^ 53 + 1`.  No list of links is rendered. -/
theorem render_loop_endless_on_last_exact_page :
    ((1 : Int) ≤ 9007199254740992 ∧ (9007199254740992 : Int) ≤ 9007199254740992) ∧
    Doubles.PaginationView.window
        { currentPage := 9007199254740992, totalPages := 9007199254740992 } =
      { windowStart := 9007199254740986, windowEnd := 9007199254740992 } ∧
    roundToDouble (9007199254740992 + 1) = 9007199254740992 ∧
    ∀ fuel, Doubles.PaginationView.render fuel
      { currentPage := 9007199254740992, totalPages := 9007199254740992 } = none := by
  have hw : Doubles.PaginationView.window
      { currentPage := 9007199254740992, totalPages := 9007199254740992 } =
      { windowStart := 9007199254740986, windowEnd := 9007199254740992 } := by decide
  refine ⟨by decide, hw, by decide, ?_⟩
  intro fuel
  simp only [Doubles.PaginationView.render, hw, Option.map_eq_none']
  exact doubles_renderLoop_stuck _ fuel _ _ (by decide) (by decide)

/-- C22 (amended): for `1 ≤ currentPage ≤ totalPages` with
`min(currentPage + 3, totalPages) < 2 ^ 53`, which holds whenever
`totalPages < 2 ^ 53`, the window of `render` contains the current page, `render`
returns its list of links once the loop condition may be evaluated often enough
(one time more than there are pages in the window) and not before, and in that
list exactly one numbered link is marked as the current page; it is the link of
the current page. -/
theorem render_marks_current_page_once (paginationInfo : PaginationInfo)
    (h1 : 1 ≤ paginationInfo.currentPage)
    (h2 : paginationInfo.currentPage ≤ paginationInfo.totalPages)
    (h3 : min (paginationInfo.currentPage + 3) paginationInfo.totalPages <
      MAX_EXACT_INTEGER) :
    (Doubles.PaginationView.window paginationInfo).windowStart ≤ paginationInfo.currentPage ∧
    paginationInfo.currentPage ≤ (Doubles.PaginationView.window paginationInfo).windowEnd ∧
    ∃ paginationLinks,
      (∀ fuel, Doubles.PaginationView.render fuel paginationInfo =
        if ((Doubles.PaginationView.window paginationInfo).windowEnd + 1 -
            (Doubles.PaginationView.window paginationInfo).windowStart).toNat < fuel then
          some paginationLinks
        else none) ∧
      ((numberedLinks paginationLinks).filter fun link => link.isCurrent).length = 1 ∧
      ∀ link ∈ numberedLinks paginationLinks,
        link.isCurrent = true ↔ link.pageNumber = paginationInfo.currentPage := by
  have he := exactRender_marks_current_page_once paginationInfo h1 h2
  rw [doubles_window_eq paginationInfo h1 h2 h3]
  exact ⟨he.1, he.2.1, PaginationView.render paginationInfo,
    fun fuel => doubles_render_eq fuel paginationInfo h1 h2 h3, he.2.2.1, he.2.2.2⟩

/-- Witness of C22: on page 10 of 10 the window is 4 to 10, `render` returns when
the loop condition may be evaluated 8 times, and the only numbered link marked as
current is that of page 10; on page 1 of `2 ^ 53` the window is 1 to 7 and
contains page 1. -/
theorem render_marks_current_page_once_witness :
    Doubles.PaginationView.window { currentPage := 10, totalPages := 10 } =
      { windowStart := 4, windowEnd := 10 } ∧
    (Doubles.PaginationView.render 8 { currentPage := 10, totalPages := 10 }).map
        (fun paginationLinks => (numberedLinks paginationLinks).map
          fun link => (link.pageNumber, link.isCurrent)) =
      some [(4, false), (5, false), (6, false), (7, false), (8, false), (9, false), (10, true)] ∧
    (Doubles.PaginationView.window { currentPage := 10, totalPages := 10 }).windowStart ≤ 10 ∧
    (10 : Int) ≤ (Doubles.PaginationView.window { currentPage := 10, totalPages := 10 }).windowEnd ∧
    Doubles.PaginationView.window { currentPage := 1, totalPages := 9007199254740992 } =
      { windowStart := 1, windowEnd := 7 } ∧
    (1 : Int) ≤ (Doubles.PaginationView.window
      { currentPage := 1, totalPages := 9007199254740992 }).windowEnd :=
  ⟨by decide, by decide,
    (render_marks_current_page_once { currentPage := 10, totalPages := 10 }
      (by decide) (by decide) (by decide)).1,
    (render_marks_current_page_once { currentPage := 10, totalPages := 10 }
      (by decide) (by decide) (by decide)).2.1,
    by decide,
    (render_marks_current_page_once { currentPage := 1, totalPages := 9007199254740992 }
      (by decide) (by decide) (by decide)).2.1⟩

/-- Counterexample to C23: on page `2 ^ 53 - 2` of `2 ^ 53`, which satisfies
`1 ≤ currentPage ≤ totalPages`, the window is `2 ^ 53 - 6` to `2 ^ 53`, and the
loop of `render` does not end, however many times its condition is evaluated: no
list of 7 numbered links is produced. -/
theorem render_produces_no_links_near_last_exact_page :
    ((1 : Int) ≤ 9007199254740990 ∧ (9007199254740990 : Int) ≤ 9007199254740992) ∧
    Doubles.PaginationView.window
        { currentPage := 9007199254740990, totalPages := 9007199254740992 } =
      { windowStart := 9007199254740986, windowEnd := 9007199254740992 } ∧
    ∀ fuel, Doubles.PaginationView.render fuel
      { currentPage := 9007199254740990, totalPages := 9007199254740992 } = none := by
  have hw : Doubles.PaginationView.window
      { currentPage := 9007199254740990, totalPages := 9007199254740992 } =
      { windowStart := 9007199254740986, windowEnd := 9007199254740992 } := by decide
  refine ⟨by decide, hw, ?_⟩
  intro fuel
  simp only [Doubles.PaginationView.render, hw, Option.map_eq_none']
  exact doubles_renderLoop_stuck _ fuel _ _ (by decide) (by decide)

/-- C23 (amended): for `1 ≤ currentPage ≤ totalPages` with
`min(currentPage + 3, totalPages) < 2 ^ 53`, which holds whenever
`totalPages < 2 ^ 53`, `render` returns its list of links once the loop condition
may be evaluated often enough (one time more than there are pages in the window)
and not before, and the list has exactly
`min(totalPages, PAGINATION_MAX_NUM_LINKS + 1)`, that is `min(totalPages, 7)`,
numbered links, for the consecutive pages from `windowStart` to `windowEnd`
inclusive, in this order. -/
theorem render_numbered_link_count (paginationInfo : PaginationInfo)
    (h1 : 1 ≤ paginationInfo.currentPage)
    (h2 : paginationInfo.currentPage ≤ paginationInfo.totalPages)
    (h3 : min (paginationInfo.currentPage + 3) paginationInfo.totalPages <
      MAX_EXACT_INTEGER) :
    ∃ paginationLinks,
      (∀ fuel, Doubles.PaginationView.render fuel paginationInfo =
        if ((Doubles.PaginationView.window paginationInfo).windowEnd + 1 -
            (Doubles.PaginationView.window paginationInfo).windowStart).toNat < fuel then
          some paginationLinks
        else none) ∧
      ((numberedLinks paginationLinks).length : Int) =
        min paginationInfo.totalPages (PAGINATION_MAX_NUM_LINKS + 1) ∧
      min paginationInfo.totalPages (PAGINATION_MAX_NUM_LINKS + 1) =
        min paginationInfo.totalPages 7 ∧
      (numberedLinks paginationLinks).map (fun link => link.pageNumber) =
        pagesFrom (Doubles.PaginationView.window paginationInfo).windowStart
          (min paginationInfo.totalPages 7).toNat ∧
      (Doubles.PaginationView.window paginationInfo).windowEnd =
        (Doubles.PaginationView.window paginationInfo).windowStart +
          min paginationInfo.totalPages 7 - 1 := by
  have he := exactRender_numbered_link_count paginationInfo h1 h2
  rw [doubles_window_eq paginationInfo h1 h2 h3]
  exact ⟨PaginationView.render paginationInfo,
    fun fuel => doubles_render_eq fuel paginationInfo h1 h2 h3, he.1, he.2.1, he.2.2.1, he.2.2.2⟩

/-- Witness of C23: on page 10 of 10 there are 7 numbered links, for the pages 4 to
10; on page 2 of 3 there are 3; and on the last page of `2 ^ 53 - 1` pages there
are 7, for the pages `2 ^ 53 - 7` to `2 ^ 53 - 1`. -/
theorem render_numbered_link_count_witness :
    (Doubles.PaginationView.render 8 { currentPage := 10, totalPages := 10 }).map
        (fun paginationLinks => (numberedLinks paginationLinks).map fun link => link.pageNumber) =
      some [4, 5, 6, 7, 8, 9, 10] ∧
    (Doubles.PaginationView.render 4 { currentPage := 2, totalPages := 3 }).map
        (fun paginationLinks => (numberedLinks paginationLinks).map fun link => link.pageNumber) =
      some [1, 2, 3] ∧
    (Doubles.PaginationView.render 8
        { currentPage := 9007199254740991, totalPages := 9007199254740991 }).map
        (fun paginationLinks => (numberedLinks paginationLinks).map fun link => link.pageNumber) =
      some [9007199254740985, 9007199254740986, 9007199254740987, 9007199254740988,
        9007199254740989, 9007199254740990, 9007199254740991] ∧
    ∃ paginationLinks,
      (∀ fuel, Doubles.PaginationView.render fuel
          { currentPage := 9007199254740991, totalPages := 9007199254740991 } =
        if ((Doubles.PaginationView.window
              { currentPage := 9007199254740991, totalPages := 9007199254740991 }).windowEnd + 1 -
            (Doubles.PaginationView.window
              { currentPage := 9007199254740991, totalPages := 9007199254740991 }).windowStart).toNat
            < fuel then
          some paginationLinks
        else none) ∧
      ((numberedLinks paginationLinks).length : Int) = min 9007199254740991 (PAGINATION_MAX_NUM_LINKS + 1) :=
  ⟨by decide, by decide, by decide,
    (render_numbered_link_count
      { currentPage := 9007199254740991, totalPages := 9007199254740991 }
      (by decide) (by decide) (by decide)).imp fun _ h => ⟨h.1, h.2.1⟩⟩

end Router
